import Mathlib

/-!
# stdext::inplace_function

A shallow embedding of `Source/Shared/arcana/functional/inplace_function.h`.

* `β` is the content of a storage buffer (`BufferType`), `α` the argument pack `ArgsT...`,
  `ρ` the return type `RetT` and `ε` the exceptions a target may raise.
* Template arguments `Capacity`, `Alignment`, `Copyable` are a `Config`; every member
  function takes the configuration of the class it is a member of.
* Objects live in a `Memory` and are referred to by address, so that aliasing (`a = a`,
  `a.swap(a)`) means what it means in the source.
* A `static_assert` (or another build-time rejection) is the result `none`.
-/

namespace stdext

/-- The constant `InplaceFunctionDefaultCapacity`. -/
def InplaceFunctionDefaultCapacity : Nat := 32

/-- The tags of `operations_enum`. The primary template declares all three, the
specialisation `inplace_function_operation<false>` declares `Destroy` and `Move` only. -/
inductive operations_enum where
  | Destroy
  | Copy
  | Move
  deriving DecidableEq, Repr

/-- The tag set `inplace_function_operation<SupportsCopy>::operations_enum`. -/
def inplace_function_operation (SupportsCopy : Bool) : operations_enum → Bool
  | .Destroy => true
  | .Copy => SupportsCopy
  | .Move => true

/-- The template arguments of one instantiation of the class template. -/
structure Config where
  Capacity : Nat
  Alignment : Nat
  Copyable : Bool
  deriving DecidableEq, Repr

/-- A concrete target type `FunctorT`: its size and alignment, whether it has a copy
constructor, its call operator (result and the object afterwards), the value its move
constructor leaves in the source, and the bytes its destructor leaves behind. A copy
(move) constructed object has the value of its source, as CopyConstructible and
MoveConstructible require. -/
structure FunctorT (β α ρ ε : Type) where
  sizeof : Nat
  alignof : Nat
  is_copy_constructible : Bool
  call : β → α → Except ε ρ × β
  moved_from : β → β
  destroyed : β → β

/-- Addresses of storage buffers: the member `m_Data` of the container at an address, and
the local `tempData` of `swap`. -/
inductive Loc where
  | m_Data (self : Nat)
  | tempData
  deriving DecidableEq, Repr

/-- What the managers do to target objects, in program order. -/
inductive Event where
  | construct (p : Loc)
  | destroy (p : Loc)
  | unexpected_operation
  deriving DecidableEq, Repr

/-- What an invocation can raise: `std::bad_function_call` thrown by `DefaultFunction`, or
whatever the target itself raised. -/
inductive Thrown (ε : Type) where
  | bad_function_call
  | by_target (e : ε)
  deriving DecidableEq, Repr

/-- Values of `InvokeFctPtrType`. `DefaultFunction` is a static member of the class
template, so every instantiation has its own; `invoke<FunctorT>` is the generated entry
call; `reinterpret_cast` is a plain function pointer cast to the invoker type. -/
inductive InvokeFctPtrType (β α ρ ε : Type) where
  | DefaultFunction (C : Config)
  | invoke (F : FunctorT β α ρ ε)
  | reinterpret_cast (ptr : α → Except ε ρ)

/-- A non-null value of `ManagerFctPtrType`: `&manage_function<FunctorT, SupportsCopying>::call`. -/
structure manage_function (β α ρ ε : Type) where
  F : FunctorT β α ρ ε
  SupportsCopying : Bool

/-- The data members of a container. -/
structure inplace_function (β α ρ ε : Type) where
  m_InvokeFctPtr : InvokeFctPtrType β α ρ ε
  m_ManagerFctPtr : Option (manage_function β α ρ ε)
  m_Data : β

/-- The containers by address, the local buffer of `swap`, and the manager events so far. -/
structure Memory (β α ρ ε : Type) where
  obj : Nat → inplace_function β α ρ ε
  tempData : β
  trace : List Event

section
variable {β α ρ ε : Type}

/-- Read a buffer. -/
def Memory.load (m : Memory β α ρ ε) : Loc → β
  | .m_Data i => (m.obj i).m_Data
  | .tempData => m.tempData

/-- Overwrite a buffer. -/
def Memory.store (m : Memory β α ρ ε) (p : Loc) (v : β) : Memory β α ρ ε :=
  match p with
  | .m_Data i => { m with obj := Function.update m.obj i { m.obj i with m_Data := v } }
  | .tempData => { m with tempData := v }

/-- Record a manager event. -/
def Memory.emit (m : Memory β α ρ ε) (e : Event) : Memory β α ρ ε :=
  { m with trace := m.trace ++ [e] }

/-- Assign the member `m_InvokeFctPtr` of the container at `i`. -/
def Memory.set_InvokeFctPtr (m : Memory β α ρ ε) (i : Nat) (f : InvokeFctPtrType β α ρ ε) :
    Memory β α ρ ε :=
  { m with obj := Function.update m.obj i { m.obj i with m_InvokeFctPtr := f } }

/-- Assign the member `m_ManagerFctPtr` of the container at `i`. -/
def Memory.set_ManagerFctPtr (m : Memory β α ρ ε) (i : Nat)
    (g : Option (manage_function β α ρ ε)) : Memory β α ρ ε :=
  { m with obj := Function.update m.obj i { m.obj i with m_ManagerFctPtr := g } }

/-- The comparison `f != &DefaultFunction` inside the class with configuration `C`. -/
def InvokeFctPtrType.ne_DefaultFunction (C : Config) : InvokeFctPtrType β α ρ ε → Bool
  | .DefaultFunction C' => decide (C' ≠ C)
  | .invoke _ => true
  | .reinterpret_cast _ => true

/-- What the caller of the container sees of a call of the target. -/
def Thrown.of_target : Except ε ρ → Except (Thrown ε) ρ
  | .ok r => .ok r
  | .error e => .error (.by_target e)

/-- Calling an invoker: `f(args..., thisPtr)`. `DefaultFunction` throws, `invoke<FunctorT>`
calls the object in the buffer, a cast function pointer ignores the buffer. -/
def InvokeFctPtrType.apply (f : InvokeFctPtrType β α ρ ε) (args : α) (thisPtr : Loc)
    (m : Memory β α ρ ε) : Except (Thrown ε) ρ × Memory β α ρ ε :=
  match f with
  | .DefaultFunction _ => (.error .bad_function_call, m)
  | .invoke F =>
    let r := F.call (m.load thisPtr) args
    (Thrown.of_target r.1, m.store thisPtr r.2)
  | .reinterpret_cast ptr => (Thrown.of_target (ptr args), m)

/-- The primary template `manage_function<FunctorT, SupportsCopying>::call`. -/
def manage_function.call_primary (F : FunctorT β α ρ ε) (dataPtr : Loc) (fromPtr : Option Loc)
    (op : operations_enum) (m : Memory β α ρ ε) : Memory β α ρ ε :=
  match op with
  | .Destroy => (m.store dataPtr (F.destroyed (m.load dataPtr))).emit (.destroy dataPtr)
  | .Move =>
    match fromPtr with
    | some source =>
      let v := m.load source
      ((m.store dataPtr v).store source (F.moved_from v)).emit (.construct dataPtr)
    | none => m
  | .Copy => m.emit .unexpected_operation

/-- The specialisation `manage_function<FunctorT, true>::call`. -/
def manage_function.call_true (F : FunctorT β α ρ ε) (dataPtr : Loc) (fromPtr : Option Loc)
    (op : operations_enum) (m : Memory β α ρ ε) : Memory β α ρ ε :=
  if op = .Copy then
    match fromPtr with
    | some source => (m.store dataPtr (m.load source)).emit (.construct dataPtr)
    | none => m
  else
    manage_function.call_primary F dataPtr fromPtr op m

/-- Calling a manager pointer: `g(thisPtr, fromPtr, op)`. -/
def manage_function.call (g : manage_function β α ρ ε) (dataPtr : Loc) (fromPtr : Option Loc)
    (op : operations_enum) (m : Memory β α ρ ε) : Memory β α ρ ε :=
  if g.SupportsCopying then manage_function.call_true g.F dataPtr fromPtr op m
  else manage_function.call_primary g.F dataPtr fromPtr op m

namespace inplace_function

/-- The member `data()`. -/
def data (this : Nat) : Loc := .m_Data this

/-- The member `clear()`. -/
def clear (C : Config) (this : Nat) (m : Memory β α ρ ε) : Memory β α ρ ε :=
  let m1 := m.set_InvokeFctPtr this (.DefaultFunction C)
  let m2 :=
    match (m1.obj this).m_ManagerFctPtr with
    | some g => g.call (data this) none .Destroy m1
    | none => m1
  m2.set_ManagerFctPtr this none

/-- The member `copy(other)` of class `C`, with `other` of class `O`. Both classes are
copyable: `other` is declared with `Copyable = true`, and `Operation::Copy` exists in `C`
only then. -/
def copy (C O : Config) (this other : Nat) (m : Memory β α ρ ε) : Option (Memory β α ρ ε) :=
  if O.Capacity ≤ C.Capacity ∧ C.Alignment % O.Alignment = 0 ∧
      C.Copyable = true ∧ O.Copyable = true then
    let m1 :=
      match (m.obj other).m_ManagerFctPtr with
      | some g => g.call (data this) (some (data other)) .Copy m
      | none => m
    let m2 := m1.set_InvokeFctPtr this (m1.obj other).m_InvokeFctPtr
    some (m2.set_ManagerFctPtr this (m2.obj other).m_ManagerFctPtr)
  else none

/-- The member `move(BufferType& from, BufferType& to)`. -/
def move_buffer (this : Nat) (fromBuf toBuf : Loc) (m : Memory β α ρ ε) : Memory β α ρ ε :=
  match (m.obj this).m_ManagerFctPtr with
  | some g => g.call fromBuf (some toBuf) .Move m
  | none => m.store toBuf (m.load fromBuf)

/-- The member `move(other)` of class `C`, with `other` of class `O`. The two manager
pointer types agree only when both classes have the same `Copyable`. -/
def move (C O : Config) (this other : Nat) (m : Memory β α ρ ε) : Option (Memory β α ρ ε) :=
  if O.Capacity ≤ C.Capacity ∧ C.Alignment % O.Alignment = 0 ∧ O.Copyable = C.Copyable then
    let m1 :=
      match (m.obj other).m_ManagerFctPtr with
      | some g => g.call (data this) (some (data other)) .Move m
      | none => m
    let m2 := m1.set_InvokeFctPtr this (m1.obj other).m_InvokeFctPtr
    let m3 := m2.set_ManagerFctPtr this (m2.obj other).m_ManagerFctPtr
    some (m3.set_InvokeFctPtr other (.DefaultFunction C))
  else none

/-- The member `set(std::nullptr_t)`. -/
def set_nullptr (C : Config) (this : Nat) (m : Memory β α ρ ε) : Memory β α ρ ε :=
  (m.set_ManagerFctPtr this none).set_InvokeFctPtr this (.DefaultFunction C)

/-- The member `set(CompatibleFunctionPointer ptr)`. -/
def set_ptr (this : Nat) (ptr : α → Except ε ρ) (m : Memory β α ρ ε) : Memory β α ρ ε :=
  (m.set_ManagerFctPtr this none).set_InvokeFctPtr this (.reinterpret_cast ptr)

/-- The common body of both functor overloads of `set`, after their checks. -/
def set_body (C : Config) (this : Nat) (F : FunctorT β α ρ ε) (ftor : β)
    (m : Memory β α ρ ε) : Memory β α ρ ε :=
  let m1 := (m.store (data this) ftor).emit (.construct (data this))
  let m2 := m1.set_ManagerFctPtr this (some ⟨F, C.Copyable⟩)
  m2.set_InvokeFctPtr this (.invoke F)

/-- The member `set(const FunctorArgT& ftor)`: the target is copy constructed into the
buffer, so it has a copy constructor. -/
def set_copy (C : Config) (this : Nat) (F : FunctorT β α ρ ε) (ftor : β)
    (m : Memory β α ρ ε) : Option (Memory β α ρ ε) :=
  if F.sizeof ≤ C.Capacity ∧ C.Alignment % F.alignof = 0 ∧ F.is_copy_constructible = true then
    some (set_body C this F ftor m)
  else none

/-- The member `set(FunctorArgT&& ftor)`: the target is move constructed into the buffer;
`manage_function<FunctorT, true>` needs its copy constructor. -/
def set_move (C : Config) (this : Nat) (F : FunctorT β α ρ ε) (ftor : β)
    (m : Memory β α ρ ε) : Option (Memory β α ρ ε) :=
  if F.sizeof ≤ C.Capacity ∧ C.Alignment % F.alignof = 0 ∧
      (C.Copyable = true → F.is_copy_constructible = true) then
    some (set_body C this F ftor m)
  else none

/-- The default constructor `inplace_function()`. -/
def ctor_default (C : Config) (this : Nat) (m : Memory β α ρ ε) : Memory β α ρ ε :=
  (m.set_InvokeFctPtr this (.DefaultFunction C)).set_ManagerFctPtr this none

/-- The destructor. -/
def dtor (C : Config) (this : Nat) (m : Memory β α ρ ε) : Memory β α ρ ε :=
  clear C this m

/-- The constructor `inplace_function(const CallableT& c)` for a functor. -/
def ctor_functor_copy (C : Config) (this : Nat) (F : FunctorT β α ρ ε) (c : β)
    (m : Memory β α ρ ε) : Option (Memory β α ρ ε) :=
  if C.Copyable = false ∨ F.is_copy_constructible = true then set_copy C this F c m else none

/-- The constructor `inplace_function(CallableT&& c)` for a functor. -/
def ctor_functor_move (C : Config) (this : Nat) (F : FunctorT β α ρ ε) (c : β)
    (m : Memory β α ρ ε) : Option (Memory β α ρ ε) :=
  if C.Copyable = false ∨ F.is_copy_constructible = true then set_move C this F c m else none

/-- Either callable constructor for the null marker. -/
def ctor_nullptr (C : Config) (this : Nat) (m : Memory β α ρ ε) : Memory β α ρ ε :=
  set_nullptr C this m

/-- Either callable constructor for a plain function pointer. -/
def ctor_ptr (this : Nat) (ptr : α → Except ε ρ) (m : Memory β α ρ ε) : Memory β α ρ ε :=
  set_ptr this ptr m

/-- The copy constructors (same class, and from a class with a smaller buffer). -/
def ctor_copy (C O : Config) (this other : Nat) (m : Memory β α ρ ε) :
    Option (Memory β α ρ ε) :=
  copy C O this other m

/-- The move constructors: from the same class, and from a class
`inplace_function<RetT(ArgsT...), OtherCapacity, OtherAlignment>` (which is copyable). -/
def ctor_move (C O : Config) (this other : Nat) (m : Memory β α ρ ε) :
    Option (Memory β α ρ ε) :=
  if O = C ∨ O.Copyable = true then move C O this other m else none

/-- The copy assignments `operator=(const inplace_function<...>& other)`. -/
def assign_copy (C O : Config) (this other : Nat) (m : Memory β α ρ ε) :
    Option (Memory β α ρ ε) :=
  copy C O this other (clear C this m)

/-- The move assignments `operator=(inplace_function<...>&& other)`: from the same class,
and from a class `inplace_function<RetT(ArgsT...), OtherCapacity, OtherAlignment>`. -/
def assign_move (C O : Config) (this other : Nat) (m : Memory β α ρ ε) :
    Option (Memory β α ρ ε) :=
  if O = C ∨ O.Copyable = true then move C O this other (clear C this m) else none

/-- The assignment `operator=(const CallableT& target)` for a functor. -/
def assign_functor_copy (C : Config) (this : Nat) (F : FunctorT β α ρ ε) (target : β)
    (m : Memory β α ρ ε) : Option (Memory β α ρ ε) :=
  set_copy C this F target (clear C this m)

/-- The assignment `operator=(Callable&& target)` for a functor. -/
def assign_functor_move (C : Config) (this : Nat) (F : FunctorT β α ρ ε) (target : β)
    (m : Memory β α ρ ε) : Option (Memory β α ρ ε) :=
  set_move C this F target (clear C this m)

/-- Assignment of the null marker. -/
def assign_nullptr (C : Config) (this : Nat) (m : Memory β α ρ ε) : Memory β α ρ ε :=
  set_nullptr C this (clear C this m)

/-- Assignment of a plain function pointer. -/
def assign_ptr (C : Config) (this : Nat) (ptr : α → Except ε ρ) (m : Memory β α ρ ε) :
    Memory β α ρ ε :=
  set_ptr this ptr (clear C this m)

/-- The assignment `operator=(Callable&& target)` with a container as its target. It has no
`enable_if`, so `d = c` with `c` a non-const lvalue container of class `O` selects it with
`Callable` an lvalue reference: `clear()`, then `set(std::move(target))` with `FunctorT` the
class `O` itself. `F` is the class `O` as a target type, `pack` gives the content of a
buffer that holds an object of class `O`, and `nested` is the address of the object that
`new (buffer) FunctorT(std::move(ftor))` constructs in the buffer, with the move constructor
of `O`, from the container at `other`. -/
def assign_lvalue (C O : Config) (F : FunctorT β α ρ ε)
    (pack : inplace_function β α ρ ε → β) (this other nested : Nat) (m : Memory β α ρ ε) :
    Option (Memory β α ρ ε) :=
  let m1 := clear C this m
  if F.sizeof ≤ C.Capacity ∧ C.Alignment % F.alignof = 0 ∧
      (C.Copyable = true → F.is_copy_constructible = true) then
    (ctor_move O O nested other m1).map fun m2 =>
      set_body C this F (pack (m2.obj nested)) m2
  else none

/-- The conversion `explicit operator bool()`. -/
def operator_bool (C : Config) (this : Nat) (m : Memory β α ρ ε) : Bool :=
  (m.obj this).m_InvokeFctPtr.ne_DefaultFunction C

/-- The comparison `operator==(std::nullptr_t)`. -/
def operator_eq_nullptr (C : Config) (this : Nat) (m : Memory β α ρ ε) : Bool :=
  !operator_bool C this m

/-- The comparison `operator!=(std::nullptr_t)`. -/
def operator_ne_nullptr (C : Config) (this : Nat) (m : Memory β α ρ ε) : Bool :=
  operator_bool C this m

/-- The call operator `operator()(ArgsT... args)`. -/
def operator_call (this : Nat) (args : α) (m : Memory β α ρ ε) :
    Except (Thrown ε) ρ × Memory β α ρ ε :=
  (m.obj this).m_InvokeFctPtr.apply args (data this) m

/-- The member `swap(other)`; both containers are of the same class. -/
def swap (this other : Nat) (m : Memory β α ρ ε) : Memory β α ρ ε :=
  let m1 := move_buffer this (data this) .tempData m
  let m2 := move_buffer other (data other) (data this) m1
  let m3 := move_buffer this .tempData (data other) m2
  let f := (m3.obj this).m_InvokeFctPtr
  let m4 := (m3.set_InvokeFctPtr this (m3.obj other).m_InvokeFctPtr).set_InvokeFctPtr other f
  let g := (m4.obj this).m_ManagerFctPtr
  (m4.set_ManagerFctPtr this (m4.obj other).m_ManagerFctPtr).set_ManagerFctPtr other g

/-- A container is paired in class `C` when a functor invoker `invoke<FunctorT>` comes with
the manager `manage_function<FunctorT, Copyable>::call` that `set` installs with it. -/
def paired (C : Config) (x : inplace_function β α ρ ε) : Prop :=
  ∀ F, x.m_InvokeFctPtr = .invoke F → x.m_ManagerFctPtr = some ⟨F, C.Copyable⟩

/-- The pairs of invoker and manager that occur in class `C`: without a manager the invoker
is no functor invoker; with the manager of `FunctorT` the invoker is `invoke<FunctorT>` or
the `DefaultFunction` of some class. -/
def coherent (C : Config) (x : inplace_function β α ρ ε) : Prop :=
  match x.m_ManagerFctPtr with
  | none => ∀ F, x.m_InvokeFctPtr ≠ .invoke F
  | some g =>
    g.SupportsCopying = C.Copyable ∧
      (x.m_InvokeFctPtr = .invoke g.F ∨ ∃ D, x.m_InvokeFctPtr = .DefaultFunction D)

/-- Invoke the container at `this` with each argument list in turn. -/
def run (this : Nat) : List α → Memory β α ρ ε → Memory β α ρ ε
  | [], m => m
  | args :: rest, m => run this rest (operator_call this args m).2

/-- The results of invoking the container at `this` with each argument list in turn. -/
def results (this : Nat) : List α → Memory β α ρ ε → List (Except (Thrown ε) ρ)
  | [], _ => []
  | args :: rest, m =>
    (operator_call this args m).1 :: results this rest (operator_call this args m).2

end inplace_function

/-- The states a program reaches through the public members; `swap` is among them when
`swaps` is `true`. `Γ` gives the class of every container that is constructed and not yet
destroyed; a program starts with no container, whatever the memory holds. -/
inductive Reachable (swaps : Bool) : (Nat → Option Config) → Memory β α ρ ε → Prop where
  | start (m : Memory β α ρ ε) : m.trace = [] → Reachable swaps (fun _ => none) m
  | ctor_default {Γ m} (C : Config) (this : Nat) : Reachable swaps Γ m → Γ this = none →
      Reachable swaps (Function.update Γ this (some C)) (inplace_function.ctor_default C this m)
  | ctor_nullptr {Γ m} (C : Config) (this : Nat) : Reachable swaps Γ m → Γ this = none →
      Reachable swaps (Function.update Γ this (some C)) (inplace_function.ctor_nullptr C this m)
  | ctor_ptr {Γ m} (C : Config) (this : Nat) (ptr : α → Except ε ρ) : Reachable swaps Γ m →
      Γ this = none →
      Reachable swaps (Function.update Γ this (some C)) (inplace_function.ctor_ptr this ptr m)
  | ctor_functor_copy {Γ m} (C : Config) (this : Nat) (F : FunctorT β α ρ ε) (c : β)
      (m1 : Memory β α ρ ε) : Reachable swaps Γ m → Γ this = none →
      inplace_function.ctor_functor_copy C this F c m = some m1 →
      Reachable swaps (Function.update Γ this (some C)) m1
  | ctor_functor_move {Γ m} (C : Config) (this : Nat) (F : FunctorT β α ρ ε) (c : β)
      (m1 : Memory β α ρ ε) : Reachable swaps Γ m → Γ this = none →
      inplace_function.ctor_functor_move C this F c m = some m1 →
      Reachable swaps (Function.update Γ this (some C)) m1
  | ctor_copy {Γ m} (C O : Config) (this other : Nat) (m1 : Memory β α ρ ε) :
      Reachable swaps Γ m → Γ this = none → Γ other = some O →
      inplace_function.ctor_copy C O this other m = some m1 →
      Reachable swaps (Function.update Γ this (some C)) m1
  | ctor_move {Γ m} (C O : Config) (this other : Nat) (m1 : Memory β α ρ ε) :
      Reachable swaps Γ m → Γ this = none → Γ other = some O →
      inplace_function.ctor_move C O this other m = some m1 →
      Reachable swaps (Function.update Γ this (some C)) m1
  | assign_copy {Γ m} (C O : Config) (this other : Nat) (m1 : Memory β α ρ ε) :
      Reachable swaps Γ m → Γ this = some C → Γ other = some O →
      inplace_function.assign_copy C O this other m = some m1 → Reachable swaps Γ m1
  | assign_move {Γ m} (C O : Config) (this other : Nat) (m1 : Memory β α ρ ε) :
      Reachable swaps Γ m → Γ this = some C → Γ other = some O →
      inplace_function.assign_move C O this other m = some m1 → Reachable swaps Γ m1
  | assign_functor_copy {Γ m} (C : Config) (this : Nat) (F : FunctorT β α ρ ε) (c : β)
      (m1 : Memory β α ρ ε) : Reachable swaps Γ m → Γ this = some C →
      inplace_function.assign_functor_copy C this F c m = some m1 → Reachable swaps Γ m1
  | assign_functor_move {Γ m} (C : Config) (this : Nat) (F : FunctorT β α ρ ε) (c : β)
      (m1 : Memory β α ρ ε) : Reachable swaps Γ m → Γ this = some C →
      inplace_function.assign_functor_move C this F c m = some m1 → Reachable swaps Γ m1
  | assign_nullptr {Γ m} (C : Config) (this : Nat) : Reachable swaps Γ m → Γ this = some C →
      Reachable swaps Γ (inplace_function.assign_nullptr C this m)
  | assign_ptr {Γ m} (C : Config) (this : Nat) (ptr : α → Except ε ρ) : Reachable swaps Γ m →
      Γ this = some C → Reachable swaps Γ (inplace_function.assign_ptr C this ptr m)
  | operator_call {Γ m} (C : Config) (this : Nat) (args : α) : Reachable swaps Γ m →
      Γ this = some C → Reachable swaps Γ (inplace_function.operator_call this args m).2
  | swap {Γ m} (C : Config) (this other : Nat) : Reachable swaps Γ m → swaps = true →
      Γ this = some C → Γ other = some C →
      Reachable swaps Γ (inplace_function.swap this other m)
  | dtor {Γ m} (C : Config) (this : Nat) : Reachable swaps Γ m → Γ this = some C →
      Reachable swaps (Function.update Γ this none) (inplace_function.dtor C this m)

end

/-- The number of destructor calls received by an object constructed at `p` just before
the given events: the `destroy p` events up to the next construction at `p`, which ends
the object without a destructor call. -/
def destroy_count (p : Loc) : List Event → Nat
  | [] => 0
  | .construct q :: rest => if q = p then 0 else destroy_count p rest
  | .destroy q :: rest => (if q = p then 1 else 0) + destroy_count p rest
  | .unexpected_operation :: rest => destroy_count p rest

/-- Every target object of a trace, as the buffer it was constructed in, with the number of
destructor calls it received. -/
def destroy_counts : List Event → List (Loc × Nat)
  | [] => []
  | .construct p :: rest => (p, destroy_count p rest) :: destroy_counts rest
  | .destroy _ :: rest => destroy_counts rest
  | .unexpected_operation :: rest => destroy_counts rest

/-- One manager event applied to the set of buffers that hold a target object: a
construction needs a buffer without an object, a destruction a buffer with one. The result
is `none` when the event breaks that. -/
def lifetimes_step (s : Option (Loc → Bool)) (e : Event) : Option (Loc → Bool) :=
  s.bind fun live =>
    match e with
    | .construct p => if live p = true then none else some (Function.update live p true)
    | .destroy p => if live p = true then some (Function.update live p false) else none
    | .unexpected_operation => some live

/-- The buffers that hold a target object after the events, starting with none. -/
def lifetimes (t : List Event) : Option (Loc → Bool) :=
  t.foldl lifetimes_step (some fun _ => false)

/-- The buffers that are to hold a target object: those of constructed containers with a
manager. -/
def holds_target {β α ρ ε : Type} (Γ : Nat → Option Config) (m : Memory β α ρ ε) : Loc → Bool
  | .m_Data i => (Γ i).isSome && (m.obj i).m_ManagerFctPtr.isSome
  | .tempData => false

/-- The manager events of a memory are tracked when no event broke the lifetime of a
target object and the buffers holding one are those of the constructed containers with a
manager. -/
def tracked {β α ρ ε : Type} (Γ : Nat → Option Config) (m : Memory β α ρ ε) : Prop :=
  ∃ live, lifetimes m.trace = some live ∧ ∀ p, live p = holds_target Γ m p

/-- The type whose manager a container of class `C` has fits the buffer of `C`: its size
is at most `Capacity` and its alignment divides `Alignment`. -/
def inplace_function.fits {β α ρ ε : Type} (C : Config) (x : inplace_function β α ρ ε) :
    Prop :=
  ∀ g, x.m_ManagerFctPtr = some g →
    g.F.sizeof ≤ C.Capacity ∧ C.Alignment % g.F.alignof = 0

/-! ## Concrete targets and memories -/

/-- The closure type of `[k](int x) { return x + k; }`; its object is the captured `k`. -/
def adder : FunctorT Int Int Int Unit where
  sizeof := 4
  alignof := 4
  is_copy_constructible := true
  call := fun k x => (.ok (x + k), k)
  moved_from := id
  destroyed := id

/-- The closure type of `[n](int x) mutable { n += x; return n; }`; its object is the
captured `n`. -/
def accumulator : FunctorT Int Int Int Unit where
  sizeof := 4
  alignof := 4
  is_copy_constructible := true
  call := fun n x => (.ok (n + x), n + x)
  moved_from := id
  destroyed := id

/-- Memory before any constructor ran: every buffer holds `junk`, the pointer members hold
whatever was there. -/
def raw (junk : Int) : Memory Int Int Int Unit where
  obj := fun _ => ⟨.reinterpret_cast (fun _ => .error ()), none, junk⟩
  tempData := junk
  trace := []

/-- The class `inplace_function<int(int), 32>`. -/
def C32 : Config := ⟨InplaceFunctionDefaultCapacity, 16, true⟩

/-- The class `inplace_function<int(int), 64>`. -/
def C64 : Config := ⟨64, 16, true⟩

/-- The class `inplace_function<int(int), 32>` as a target type: two function pointers and
the buffer of 32 bytes aligned to 16 make 48 bytes aligned to 16; it has a copy
constructor. Its call operator, what its move constructor leaves in the source and what its
destructor leaves are those of the object representation in use. -/
def F32 (call : Int → Int → Except Unit Int × Int) (moved_from destroyed : Int → Int) :
    FunctorT Int Int Int Unit :=
  ⟨48, 16, true, call, moved_from, destroyed⟩

/-- Two containers of class `C32` in raw memory: the one at address 0 constructed from an
`adder` with `k = 5`, the one at address 1 from an `adder` with `k = 10`. -/
def two_adders (junk : Int) : Option (Memory Int Int Int Unit) :=
  (inplace_function.ctor_functor_copy C32 0 adder 5 (raw junk)).bind
    (inplace_function.ctor_functor_copy C32 1 adder 10)

/-- Two containers of class `C32` in raw memory: the one at address 0 constructed from an
`adder` with `k = 5`, the one at address 1 default constructed. -/
def adder_and_empty (junk : Int) : Option (Memory Int Int Int Unit) :=
  (inplace_function.ctor_functor_copy C32 0 adder 5 (raw junk)).map
    (inplace_function.ctor_default C32 1)

/-- A container of class `C32` at address 0 constructed from an `adder` with `k = 5`, and a
default constructed container of class `C64` at address 1. -/
def narrow_and_wide : Option (Memory Int Int Int Unit) :=
  (inplace_function.ctor_functor_copy C32 0 adder 5 (raw 0)).map
    (inplace_function.ctor_default C64 1)

section
variable {β α ρ ε : Type}
open inplace_function

/-! ## Memory lemmas -/

theorem manage_function.call_Move (g : manage_function β α ρ ε) (p q : Loc)
    (m : Memory β α ρ ε) :
    g.call p (some q) .Move m =
      ((m.store p (m.load q)).store q (g.F.moved_from (m.load q))).emit (.construct p) := by
  cases h : g.SupportsCopying <;>
    simp [manage_function.call, manage_function.call_true, manage_function.call_primary, h]

theorem manage_function.call_Copy (g : manage_function β α ρ ε) (p q : Loc)
    (m : Memory β α ρ ε) (h : g.SupportsCopying = true) :
    g.call p (some q) .Copy m = (m.store p (m.load q)).emit (.construct p) := by
  simp [manage_function.call, manage_function.call_true, h]

theorem manage_function.call_Destroy (g : manage_function β α ρ ε) (p : Loc) (q : Option Loc)
    (m : Memory β α ρ ε) :
    g.call p q .Destroy m = (m.store p (g.F.destroyed (m.load p))).emit (.destroy p) := by
  cases h : g.SupportsCopying <;>
    simp [manage_function.call, manage_function.call_true, manage_function.call_primary, h]

theorem Memory.store_m_InvokeFctPtr (m : Memory β α ρ ε) (p : Loc) (v : β) (i : Nat) :
    ((m.store p v).obj i).m_InvokeFctPtr = (m.obj i).m_InvokeFctPtr := by
  cases p with
  | tempData => rfl
  | m_Data j =>
    by_cases h : i = j
    · subst h; simp [Memory.store]
    · simp [Memory.store, Function.update_noteq h]

theorem Memory.store_m_ManagerFctPtr (m : Memory β α ρ ε) (p : Loc) (v : β) (i : Nat) :
    ((m.store p v).obj i).m_ManagerFctPtr = (m.obj i).m_ManagerFctPtr := by
  cases p with
  | tempData => rfl
  | m_Data j =>
    by_cases h : i = j
    · subst h; simp [Memory.store]
    · simp [Memory.store, Function.update_noteq h]

theorem Memory.emit_obj (m : Memory β α ρ ε) (e : Event) : (m.emit e).obj = m.obj := rfl

theorem manage_function.call_m_InvokeFctPtr (g : manage_function β α ρ ε) (p : Loc)
    (q : Option Loc) (op : operations_enum) (m : Memory β α ρ ε) (i : Nat) :
    ((g.call p q op m).obj i).m_InvokeFctPtr = (m.obj i).m_InvokeFctPtr := by
  cases h : g.SupportsCopying <;> cases op <;> cases q <;>
    simp [manage_function.call, manage_function.call_true, manage_function.call_primary, h,
      Memory.emit_obj, Memory.store_m_InvokeFctPtr]

theorem manage_function.call_m_ManagerFctPtr (g : manage_function β α ρ ε) (p : Loc)
    (q : Option Loc) (op : operations_enum) (m : Memory β α ρ ε) (i : Nat) :
    ((g.call p q op m).obj i).m_ManagerFctPtr = (m.obj i).m_ManagerFctPtr := by
  cases h : g.SupportsCopying <;> cases op <;> cases q <;>
    simp [manage_function.call, manage_function.call_true, manage_function.call_primary, h,
      Memory.emit_obj, Memory.store_m_ManagerFctPtr]

/-! ## The pointer members after each member function -/

theorem Memory.set_InvokeFctPtr_m_InvokeFctPtr (m : Memory β α ρ ε) (t i : Nat)
    (f : InvokeFctPtrType β α ρ ε) :
    ((m.set_InvokeFctPtr t f).obj i).m_InvokeFctPtr =
      if i = t then f else (m.obj i).m_InvokeFctPtr := by
  by_cases h : i = t
  · subst h; simp [Memory.set_InvokeFctPtr]
  · simp [Memory.set_InvokeFctPtr, Function.update_noteq h, h]

theorem Memory.set_InvokeFctPtr_m_ManagerFctPtr (m : Memory β α ρ ε) (t i : Nat)
    (f : InvokeFctPtrType β α ρ ε) :
    ((m.set_InvokeFctPtr t f).obj i).m_ManagerFctPtr = (m.obj i).m_ManagerFctPtr := by
  by_cases h : i = t
  · subst h; simp [Memory.set_InvokeFctPtr]
  · simp [Memory.set_InvokeFctPtr, Function.update_noteq h]

theorem Memory.set_InvokeFctPtr_m_Data (m : Memory β α ρ ε) (t i : Nat)
    (f : InvokeFctPtrType β α ρ ε) :
    ((m.set_InvokeFctPtr t f).obj i).m_Data = (m.obj i).m_Data := by
  by_cases h : i = t
  · subst h; simp [Memory.set_InvokeFctPtr]
  · simp [Memory.set_InvokeFctPtr, Function.update_noteq h]

theorem Memory.set_ManagerFctPtr_m_ManagerFctPtr (m : Memory β α ρ ε) (t i : Nat)
    (g : Option (manage_function β α ρ ε)) :
    ((m.set_ManagerFctPtr t g).obj i).m_ManagerFctPtr =
      if i = t then g else (m.obj i).m_ManagerFctPtr := by
  by_cases h : i = t
  · subst h; simp [Memory.set_ManagerFctPtr]
  · simp [Memory.set_ManagerFctPtr, Function.update_noteq h, h]

theorem Memory.set_ManagerFctPtr_m_InvokeFctPtr (m : Memory β α ρ ε) (t i : Nat)
    (g : Option (manage_function β α ρ ε)) :
    ((m.set_ManagerFctPtr t g).obj i).m_InvokeFctPtr = (m.obj i).m_InvokeFctPtr := by
  by_cases h : i = t
  · subst h; simp [Memory.set_ManagerFctPtr]
  · simp [Memory.set_ManagerFctPtr, Function.update_noteq h]

theorem Memory.set_ManagerFctPtr_m_Data (m : Memory β α ρ ε) (t i : Nat)
    (g : Option (manage_function β α ρ ε)) :
    ((m.set_ManagerFctPtr t g).obj i).m_Data = (m.obj i).m_Data := by
  by_cases h : i = t
  · subst h; simp [Memory.set_ManagerFctPtr]
  · simp [Memory.set_ManagerFctPtr, Function.update_noteq h]

theorem Memory.store_m_Data (m : Memory β α ρ ε) (p : Loc) (v : β) (i : Nat) :
    ((m.store p v).obj i).m_Data = if p = .m_Data i then v else (m.obj i).m_Data := by
  cases p with
  | tempData => simp [Memory.store]
  | m_Data j =>
    by_cases h : i = j
    · subst h; simp [Memory.store]
    · have h2 : j ≠ i := fun e => h e.symm
      simp [Memory.store, Function.update_noteq h, h2]

theorem Memory.load_m_Data (m : Memory β α ρ ε) (i : Nat) :
    m.load (.m_Data i) = (m.obj i).m_Data := rfl

namespace inplace_function

theorem clear_m_InvokeFctPtr (C : Config) (t i : Nat) (m : Memory β α ρ ε) :
    ((clear C t m).obj i).m_InvokeFctPtr =
      if i = t then .DefaultFunction C else (m.obj i).m_InvokeFctPtr := by
  simp only [clear]
  split <;>
    simp [Memory.set_ManagerFctPtr_m_InvokeFctPtr, manage_function.call_m_InvokeFctPtr,
      Memory.set_InvokeFctPtr_m_InvokeFctPtr]

theorem clear_m_ManagerFctPtr (C : Config) (t i : Nat) (m : Memory β α ρ ε) :
    ((clear C t m).obj i).m_ManagerFctPtr =
      if i = t then none else (m.obj i).m_ManagerFctPtr := by
  simp only [clear]
  split <;>
    simp [Memory.set_ManagerFctPtr_m_ManagerFctPtr, manage_function.call_m_ManagerFctPtr,
      Memory.set_InvokeFctPtr_m_ManagerFctPtr]

theorem clear_m_Data (C : Config) (t i : Nat) (m : Memory β α ρ ε) (h : i ≠ t) :
    ((clear C t m).obj i).m_Data = (m.obj i).m_Data := by
  have h2 : Loc.m_Data t ≠ Loc.m_Data i := fun e => h (Loc.m_Data.inj e).symm
  simp only [clear]
  split <;>
    simp [Memory.set_ManagerFctPtr_m_Data, manage_function.call_Destroy, Memory.emit_obj,
      Memory.store_m_Data, Memory.set_InvokeFctPtr_m_Data, data, h2]

theorem copy_m_InvokeFctPtr (C O : Config) (t o i : Nat) (m m1 : Memory β α ρ ε)
    (h : copy C O t o m = some m1) :
    (m1.obj i).m_InvokeFctPtr =
      if i = t then (m.obj o).m_InvokeFctPtr else (m.obj i).m_InvokeFctPtr := by
  simp only [copy] at h
  split at h
  · cases h
    split <;>
      simp [Memory.set_ManagerFctPtr_m_InvokeFctPtr, Memory.set_InvokeFctPtr_m_InvokeFctPtr,
        manage_function.call_m_InvokeFctPtr]
  · cases h

theorem copy_m_ManagerFctPtr (C O : Config) (t o i : Nat) (m m1 : Memory β α ρ ε)
    (h : copy C O t o m = some m1) :
    (m1.obj i).m_ManagerFctPtr =
      if i = t then (m.obj o).m_ManagerFctPtr else (m.obj i).m_ManagerFctPtr := by
  simp only [copy] at h
  split at h
  · cases h
    split <;>
      simp [Memory.set_ManagerFctPtr_m_ManagerFctPtr, Memory.set_InvokeFctPtr_m_ManagerFctPtr,
        manage_function.call_m_ManagerFctPtr]
  · cases h

theorem move_m_InvokeFctPtr (C O : Config) (t o i : Nat) (m m1 : Memory β α ρ ε)
    (h : move C O t o m = some m1) :
    (m1.obj i).m_InvokeFctPtr =
      if i = o then .DefaultFunction C
      else if i = t then (m.obj o).m_InvokeFctPtr else (m.obj i).m_InvokeFctPtr := by
  simp only [move] at h
  split at h
  · cases h
    split <;>
      simp [Memory.set_ManagerFctPtr_m_InvokeFctPtr, Memory.set_InvokeFctPtr_m_InvokeFctPtr,
        manage_function.call_m_InvokeFctPtr]
  · cases h

theorem move_m_ManagerFctPtr (C O : Config) (t o i : Nat) (m m1 : Memory β α ρ ε)
    (h : move C O t o m = some m1) :
    (m1.obj i).m_ManagerFctPtr =
      if i = t then (m.obj o).m_ManagerFctPtr else (m.obj i).m_ManagerFctPtr := by
  simp only [move] at h
  split at h
  · cases h
    split <;>
      simp [Memory.set_ManagerFctPtr_m_ManagerFctPtr, Memory.set_InvokeFctPtr_m_ManagerFctPtr,
        manage_function.call_m_ManagerFctPtr]
  · cases h

theorem set_body_m_InvokeFctPtr (C : Config) (t i : Nat) (F : FunctorT β α ρ ε) (v : β)
    (m : Memory β α ρ ε) :
    ((set_body C t F v m).obj i).m_InvokeFctPtr =
      if i = t then .invoke F else (m.obj i).m_InvokeFctPtr := by
  simp [set_body, Memory.set_ManagerFctPtr_m_InvokeFctPtr,
    Memory.set_InvokeFctPtr_m_InvokeFctPtr, Memory.emit_obj, Memory.store_m_InvokeFctPtr]

theorem set_body_m_ManagerFctPtr (C : Config) (t i : Nat) (F : FunctorT β α ρ ε) (v : β)
    (m : Memory β α ρ ε) :
    ((set_body C t F v m).obj i).m_ManagerFctPtr =
      if i = t then some ⟨F, C.Copyable⟩ else (m.obj i).m_ManagerFctPtr := by
  simp [set_body, Memory.set_ManagerFctPtr_m_ManagerFctPtr,
    Memory.set_InvokeFctPtr_m_ManagerFctPtr, Memory.emit_obj, Memory.store_m_ManagerFctPtr]

theorem set_nullptr_m_InvokeFctPtr (C : Config) (t i : Nat) (m : Memory β α ρ ε) :
    ((set_nullptr C t m).obj i).m_InvokeFctPtr =
      if i = t then .DefaultFunction C else (m.obj i).m_InvokeFctPtr := by
  simp [set_nullptr, Memory.set_ManagerFctPtr_m_InvokeFctPtr,
    Memory.set_InvokeFctPtr_m_InvokeFctPtr]

theorem set_nullptr_m_ManagerFctPtr (C : Config) (t i : Nat) (m : Memory β α ρ ε) :
    ((set_nullptr C t m).obj i).m_ManagerFctPtr =
      if i = t then none else (m.obj i).m_ManagerFctPtr := by
  simp [set_nullptr, Memory.set_ManagerFctPtr_m_ManagerFctPtr,
    Memory.set_InvokeFctPtr_m_ManagerFctPtr]

theorem set_ptr_m_InvokeFctPtr (t i : Nat) (ptr : α → Except ε ρ) (m : Memory β α ρ ε) :
    ((set_ptr t ptr m).obj i).m_InvokeFctPtr =
      if i = t then .reinterpret_cast ptr else (m.obj i).m_InvokeFctPtr := by
  simp [set_ptr, Memory.set_ManagerFctPtr_m_InvokeFctPtr,
    Memory.set_InvokeFctPtr_m_InvokeFctPtr]

theorem set_ptr_m_ManagerFctPtr (t i : Nat) (ptr : α → Except ε ρ) (m : Memory β α ρ ε) :
    ((set_ptr t ptr m).obj i).m_ManagerFctPtr =
      if i = t then none else (m.obj i).m_ManagerFctPtr := by
  simp [set_ptr, Memory.set_ManagerFctPtr_m_ManagerFctPtr,
    Memory.set_InvokeFctPtr_m_ManagerFctPtr]

theorem ctor_default_m_InvokeFctPtr (C : Config) (t i : Nat) (m : Memory β α ρ ε) :
    ((ctor_default C t m).obj i).m_InvokeFctPtr =
      if i = t then .DefaultFunction C else (m.obj i).m_InvokeFctPtr := by
  simp [ctor_default, Memory.set_ManagerFctPtr_m_InvokeFctPtr,
    Memory.set_InvokeFctPtr_m_InvokeFctPtr]

theorem ctor_default_m_ManagerFctPtr (C : Config) (t i : Nat) (m : Memory β α ρ ε) :
    ((ctor_default C t m).obj i).m_ManagerFctPtr =
      if i = t then none else (m.obj i).m_ManagerFctPtr := by
  simp [ctor_default, Memory.set_ManagerFctPtr_m_ManagerFctPtr,
    Memory.set_InvokeFctPtr_m_ManagerFctPtr]

theorem operator_call_m_InvokeFctPtr (t i : Nat) (args : α) (m : Memory β α ρ ε) :
    (((operator_call t args m).2).obj i).m_InvokeFctPtr = (m.obj i).m_InvokeFctPtr := by
  simp only [operator_call, InvokeFctPtrType.apply]
  split <;> simp [Memory.store_m_InvokeFctPtr]

theorem operator_call_m_ManagerFctPtr (t i : Nat) (args : α) (m : Memory β α ρ ε) :
    (((operator_call t args m).2).obj i).m_ManagerFctPtr = (m.obj i).m_ManagerFctPtr := by
  simp only [operator_call, InvokeFctPtrType.apply]
  split <;> simp [Memory.store_m_ManagerFctPtr]

theorem move_buffer_m_InvokeFctPtr (t i : Nat) (p q : Loc) (m : Memory β α ρ ε) :
    ((move_buffer t p q m).obj i).m_InvokeFctPtr = (m.obj i).m_InvokeFctPtr := by
  simp only [move_buffer]
  split <;> simp [Memory.store_m_InvokeFctPtr, manage_function.call_m_InvokeFctPtr]

theorem move_buffer_m_ManagerFctPtr (t i : Nat) (p q : Loc) (m : Memory β α ρ ε) :
    ((move_buffer t p q m).obj i).m_ManagerFctPtr = (m.obj i).m_ManagerFctPtr := by
  simp only [move_buffer]
  split <;> simp [Memory.store_m_ManagerFctPtr, manage_function.call_m_ManagerFctPtr]

theorem swap_m_InvokeFctPtr (t o i : Nat) (m : Memory β α ρ ε) :
    ((swap t o m).obj i).m_InvokeFctPtr =
      if i = t then (m.obj o).m_InvokeFctPtr
      else if i = o then (m.obj t).m_InvokeFctPtr else (m.obj i).m_InvokeFctPtr := by
  simp only [swap, Memory.set_ManagerFctPtr_m_InvokeFctPtr,
    Memory.set_InvokeFctPtr_m_InvokeFctPtr, move_buffer_m_InvokeFctPtr]
  by_cases h1 : i = t
  · subst h1
    by_cases h2 : o = i
    · subst h2; simp
    · simp [h2, Ne.symm h2]
  · by_cases h2 : i = o
    · subst h2; simp [h1, Ne.symm h1]
    · simp [h1, h2]

theorem swap_m_ManagerFctPtr (t o i : Nat) (m : Memory β α ρ ε) :
    ((swap t o m).obj i).m_ManagerFctPtr =
      if i = t then (m.obj o).m_ManagerFctPtr
      else if i = o then (m.obj t).m_ManagerFctPtr else (m.obj i).m_ManagerFctPtr := by
  simp only [swap, Memory.set_ManagerFctPtr_m_ManagerFctPtr,
    Memory.set_InvokeFctPtr_m_ManagerFctPtr, move_buffer_m_ManagerFctPtr]
  by_cases h1 : i = t
  · subst h1
    by_cases h2 : o = i
    · subst h2; simp
    · simp [h2, Ne.symm h2]
  · by_cases h2 : i = o
    · subst h2; simp [h1, Ne.symm h1]
    · simp [h1, h2]

end inplace_function

/-! ## The invariant of the pointer members -/

theorem inplace_function.coherent_congr (C D : Config) (x y : inplace_function β α ρ ε)
    (hf : y.m_InvokeFctPtr = x.m_InvokeFctPtr) (hg : y.m_ManagerFctPtr = x.m_ManagerFctPtr)
    (hc : C.Copyable = D.Copyable) (h : coherent C x) : coherent D y := by
  unfold coherent at h ⊢
  rw [hf, hg, ← hc]
  exact h

theorem inplace_function.coherent_empty (C D : Config) (x : inplace_function β α ρ ε)
    (hf : x.m_InvokeFctPtr = .DefaultFunction D) (hg : x.m_ManagerFctPtr = none) :
    coherent C x := by
  unfold coherent
  rw [hf, hg]
  intro F h
  cases h

theorem inplace_function.coherent_ptr (C : Config) (x : inplace_function β α ρ ε)
    (ptr : α → Except ε ρ)
    (hf : x.m_InvokeFctPtr = .reinterpret_cast ptr) (hg : x.m_ManagerFctPtr = none) :
    coherent C x := by
  unfold coherent
  rw [hf, hg]
  intro F h
  cases h

theorem inplace_function.coherent_functor (C : Config) (x : inplace_function β α ρ ε)
    (F : FunctorT β α ρ ε)
    (hf : x.m_InvokeFctPtr = .invoke F) (hg : x.m_ManagerFctPtr = some ⟨F, C.Copyable⟩) :
    coherent C x := by
  unfold coherent
  rw [hf, hg]
  exact ⟨rfl, Or.inl rfl⟩

theorem inplace_function.coherent_moved_from (C D E : Config) (x y : inplace_function β α ρ ε)
    (hf : y.m_InvokeFctPtr = .DefaultFunction E) (hg : y.m_ManagerFctPtr = x.m_ManagerFctPtr)
    (hc : C.Copyable = D.Copyable) (h : coherent C x) : coherent D y := by
  unfold coherent at h ⊢
  rw [hf, hg]
  cases hx : x.m_ManagerFctPtr with
  | none => intro F h; cases h
  | some g =>
    rw [hx] at h
    exact ⟨hc ▸ h.1, Or.inr ⟨E, rfl⟩⟩

theorem inplace_function.set_copy_eq (C : Config) (t : Nat) (F : FunctorT β α ρ ε) (v : β)
    (m m1 : Memory β α ρ ε) (h : set_copy C t F v m = some m1) : m1 = set_body C t F v m := by
  simp only [set_copy] at h
  split at h
  · cases h; rfl
  · cases h

theorem inplace_function.set_move_eq (C : Config) (t : Nat) (F : FunctorT β α ρ ε) (v : β)
    (m m1 : Memory β α ρ ε) (h : set_move C t F v m = some m1) : m1 = set_body C t F v m := by
  simp only [set_move] at h
  split at h
  · cases h; rfl
  · cases h

theorem inplace_function.copy_Copyable (C O : Config) (t o : Nat) (m m1 : Memory β α ρ ε)
    (h : copy C O t o m = some m1) : O.Copyable = C.Copyable := by
  simp only [copy] at h
  split at h
  · rename_i hc; rw [hc.2.2.1, hc.2.2.2]
  · cases h

theorem inplace_function.move_Copyable (C O : Config) (t o : Nat) (m m1 : Memory β α ρ ε)
    (h : move C O t o m = some m1) : O.Copyable = C.Copyable := by
  simp only [move] at h
  split at h
  · rename_i hc; exact hc.2.2
  · cases h

theorem reachable_coherent {swaps : Bool} {Γ : Nat → Option Config} {m : Memory β α ρ ε}
    (h : Reachable swaps Γ m) : ∀ i C, Γ i = some C → coherent C (m.obj i) := by
  induction h with
  | start m _ => intro i C hi; cases hi
  | ctor_default C t _ _ ih =>
    intro i D hi
    by_cases e : i = t
    · subst e
      exact coherent_empty D C _ (by simp [ctor_default_m_InvokeFctPtr])
        (by simp [ctor_default_m_ManagerFctPtr])
    · rw [Function.update_noteq e] at hi
      exact coherent_congr D D _ _ (by simp [ctor_default_m_InvokeFctPtr, e])
        (by simp [ctor_default_m_ManagerFctPtr, e]) rfl (ih i D hi)
  | ctor_nullptr C t _ _ ih =>
    intro i D hi
    by_cases e : i = t
    · subst e
      exact coherent_empty D C _ (by simp [ctor_nullptr, set_nullptr_m_InvokeFctPtr])
        (by simp [ctor_nullptr, set_nullptr_m_ManagerFctPtr])
    · rw [Function.update_noteq e] at hi
      exact coherent_congr D D _ _ (by simp [ctor_nullptr, set_nullptr_m_InvokeFctPtr, e])
        (by simp [ctor_nullptr, set_nullptr_m_ManagerFctPtr, e]) rfl (ih i D hi)
  | ctor_ptr C t ptr _ _ ih =>
    intro i D hi
    by_cases e : i = t
    · subst e
      exact coherent_ptr D _ ptr (by simp [ctor_ptr, set_ptr_m_InvokeFctPtr])
        (by simp [ctor_ptr, set_ptr_m_ManagerFctPtr])
    · rw [Function.update_noteq e] at hi
      exact coherent_congr D D _ _ (by simp [ctor_ptr, set_ptr_m_InvokeFctPtr, e])
        (by simp [ctor_ptr, set_ptr_m_ManagerFctPtr, e]) rfl (ih i D hi)
  | ctor_functor_copy C t F c m1 _ _ hm ih =>
    intro i D hi
    simp only [ctor_functor_copy] at hm
    split at hm
    · have hm1 := set_copy_eq C t F c _ m1 hm
      subst hm1
      by_cases e : i = t
      · subst e
        simp only [Function.update_same, Option.some.injEq] at hi
        subst hi
        exact coherent_functor C _ F (by simp [set_body_m_InvokeFctPtr])
          (by simp [set_body_m_ManagerFctPtr])
      · rw [Function.update_noteq e] at hi
        exact coherent_congr D D _ _ (by simp [set_body_m_InvokeFctPtr, e])
          (by simp [set_body_m_ManagerFctPtr, e]) rfl (ih i D hi)
    · cases hm
  | ctor_functor_move C t F c m1 _ _ hm ih =>
    intro i D hi
    simp only [ctor_functor_move] at hm
    split at hm
    · have hm1 := set_move_eq C t F c _ m1 hm
      subst hm1
      by_cases e : i = t
      · subst e
        simp only [Function.update_same, Option.some.injEq] at hi
        subst hi
        exact coherent_functor C _ F (by simp [set_body_m_InvokeFctPtr])
          (by simp [set_body_m_ManagerFctPtr])
      · rw [Function.update_noteq e] at hi
        exact coherent_congr D D _ _ (by simp [set_body_m_InvokeFctPtr, e])
          (by simp [set_body_m_ManagerFctPtr, e]) rfl (ih i D hi)
    · cases hm
  | ctor_copy C O t o m1 _ ht ho hm ih =>
    intro i D hi
    simp only [ctor_copy] at hm
    by_cases e : i = t
    · subst e
      simp only [Function.update_same, Option.some.injEq] at hi
      subst hi
      exact coherent_congr O C _ _ (by simp [copy_m_InvokeFctPtr C O i o i _ m1 hm])
        (by simp [copy_m_ManagerFctPtr C O i o i _ m1 hm]) (copy_Copyable C O i o _ m1 hm)
        (ih o O ho)
    · rw [Function.update_noteq e] at hi
      exact coherent_congr D D _ _ (by simp [copy_m_InvokeFctPtr C O t o i _ m1 hm, e])
        (by simp [copy_m_ManagerFctPtr C O t o i _ m1 hm, e]) rfl (ih i D hi)
  | ctor_move C O t o m1 _ ht ho hm ih =>
    intro i D hi
    simp only [ctor_move] at hm
    split at hm
    · have hto : t ≠ o := fun e => by rw [e, ho] at ht; cases ht
      by_cases e : i = t
      · subst e
        simp only [Function.update_same, Option.some.injEq] at hi
        subst hi
        exact coherent_congr O C _ _ (by simp [move_m_InvokeFctPtr C O i o i _ m1 hm, hto])
          (by simp [move_m_ManagerFctPtr C O i o i _ m1 hm]) (move_Copyable C O i o _ m1 hm)
          (ih o O ho)
      · rw [Function.update_noteq e] at hi
        by_cases e2 : i = o
        · subst e2
          exact coherent_moved_from D D C _ _ (by simp [move_m_InvokeFctPtr C O t i i _ m1 hm])
            (by simp [move_m_ManagerFctPtr C O t i i _ m1 hm, e]) rfl (ih i D hi)
        · exact coherent_congr D D _ _ (by simp [move_m_InvokeFctPtr C O t o i _ m1 hm, e, e2])
            (by simp [move_m_ManagerFctPtr C O t o i _ m1 hm, e]) rfl (ih i D hi)
    · cases hm
  | assign_copy C O t o m1 _ ht ho hm ih =>
    intro i D hi
    simp only [assign_copy] at hm
    have hf := copy_m_InvokeFctPtr C O t o i _ m1 hm
    have hg := copy_m_ManagerFctPtr C O t o i _ m1 hm
    simp only [clear_m_InvokeFctPtr, clear_m_ManagerFctPtr] at hf hg
    by_cases e : i = t
    · subst e
      rw [ht] at hi; cases hi
      by_cases e2 : o = i
      · subst e2
        exact coherent_empty _ C _ (by simp [hf]) (by simp [hg])
      · exact coherent_congr O _ _ _ (by simp [hf, e2]) (by simp [hg, e2])
          (copy_Copyable _ O _ o _ m1 hm) (ih o O ho)
    · exact coherent_congr D D _ _ (by simp [hf, e]) (by simp [hg, e]) rfl (ih i D hi)
  | assign_move C O t o m1 _ ht ho hm ih =>
    intro i D hi
    simp only [assign_move] at hm
    split at hm
    · have hf := move_m_InvokeFctPtr C O t o i _ m1 hm
      have hg := move_m_ManagerFctPtr C O t o i _ m1 hm
      simp only [clear_m_InvokeFctPtr, clear_m_ManagerFctPtr] at hf hg
      by_cases e2 : i = o
      · subst e2
        rw [ho] at hi; cases hi
        by_cases e : i = t
        · subst e
          exact coherent_empty _ C _ (by simp [hf]) (by simp [hg])
        · exact coherent_moved_from O O C _ _ (by simp [hf]) (by simp [hg, e]) rfl (ih i O ho)
      · by_cases e : i = t
        · subst e
          rw [ht] at hi; cases hi
          exact coherent_congr O _ _ _ (by simp [hf, e2, Ne.symm e2])
            (by simp [hg, e2, Ne.symm e2]) (move_Copyable _ O _ o _ m1 hm) (ih o O ho)
        · exact coherent_congr D D _ _ (by simp [hf, e, e2]) (by simp [hg, e]) rfl (ih i D hi)
    · cases hm
  | assign_functor_copy C t F c m1 _ ht hm ih =>
    intro i D hi
    simp only [assign_functor_copy] at hm
    have hm1 := set_copy_eq C t F c _ m1 hm
    subst hm1
    by_cases e : i = t
    · subst e
      rw [ht] at hi; cases hi
      exact coherent_functor _ _ F (by simp [set_body_m_InvokeFctPtr])
        (by simp [set_body_m_ManagerFctPtr])
    · exact coherent_congr D D _ _ (by simp [set_body_m_InvokeFctPtr, clear_m_InvokeFctPtr, e])
        (by simp [set_body_m_ManagerFctPtr, clear_m_ManagerFctPtr, e]) rfl (ih i D hi)
  | assign_functor_move C t F c m1 _ ht hm ih =>
    intro i D hi
    simp only [assign_functor_move] at hm
    have hm1 := set_move_eq C t F c _ m1 hm
    subst hm1
    by_cases e : i = t
    · subst e
      rw [ht] at hi; cases hi
      exact coherent_functor _ _ F (by simp [set_body_m_InvokeFctPtr])
        (by simp [set_body_m_ManagerFctPtr])
    · exact coherent_congr D D _ _ (by simp [set_body_m_InvokeFctPtr, clear_m_InvokeFctPtr, e])
        (by simp [set_body_m_ManagerFctPtr, clear_m_ManagerFctPtr, e]) rfl (ih i D hi)
  | assign_nullptr C t _ ht ih =>
    intro i D hi
    by_cases e : i = t
    · subst e
      exact coherent_empty D C _ (by simp [assign_nullptr, set_nullptr_m_InvokeFctPtr])
        (by simp [assign_nullptr, set_nullptr_m_ManagerFctPtr])
    · exact coherent_congr D D _ _
        (by simp [assign_nullptr, set_nullptr_m_InvokeFctPtr, clear_m_InvokeFctPtr, e])
        (by simp [assign_nullptr, set_nullptr_m_ManagerFctPtr, clear_m_ManagerFctPtr, e]) rfl
        (ih i D hi)
  | assign_ptr C t ptr _ ht ih =>
    intro i D hi
    by_cases e : i = t
    · subst e
      exact coherent_ptr D _ ptr (by simp [assign_ptr, set_ptr_m_InvokeFctPtr])
        (by simp [assign_ptr, set_ptr_m_ManagerFctPtr])
    · exact coherent_congr D D _ _
        (by simp [assign_ptr, set_ptr_m_InvokeFctPtr, clear_m_InvokeFctPtr, e])
        (by simp [assign_ptr, set_ptr_m_ManagerFctPtr, clear_m_ManagerFctPtr, e]) rfl
        (ih i D hi)
  | operator_call C t args _ ht ih =>
    intro i D hi
    exact coherent_congr D D _ _ (operator_call_m_InvokeFctPtr t i args _)
      (operator_call_m_ManagerFctPtr t i args _) rfl (ih i D hi)
  | swap C t o _ _ ht ho ih =>
    intro i D hi
    by_cases e : i = t
    · subst e
      rw [ht] at hi; cases hi
      exact coherent_congr _ _ _ _ (by simp [swap_m_InvokeFctPtr])
        (by simp [swap_m_ManagerFctPtr]) rfl (ih o _ ho)
    · by_cases e2 : i = o
      · subst e2
        rw [ho] at hi; cases hi
        exact coherent_congr _ _ _ _ (by simp [swap_m_InvokeFctPtr, e])
          (by simp [swap_m_ManagerFctPtr, e]) rfl (ih t _ ht)
      · exact coherent_congr D D _ _ (by simp [swap_m_InvokeFctPtr, e, e2])
          (by simp [swap_m_ManagerFctPtr, e, e2]) rfl (ih i D hi)
  | dtor C t _ ht ih =>
    intro i D hi
    by_cases e : i = t
    · subst e
      simp at hi
    · rw [Function.update_noteq e] at hi
      exact coherent_congr D D _ _ (by simp [dtor, clear_m_InvokeFctPtr, e])
        (by simp [dtor, clear_m_ManagerFctPtr, e]) rfl (ih i D hi)

/-! ## Buffers and invocation -/

namespace inplace_function

theorem coherent_paired (C : Config) (x : inplace_function β α ρ ε) (h : coherent C x) :
    paired C x := by
  intro F hF
  unfold coherent at h
  cases hg : x.m_ManagerFctPtr with
  | none =>
    rw [hg] at h
    exact absurd hF (h F)
  | some g =>
    rw [hg] at h
    rcases h with ⟨h1, h2 | ⟨D, h2⟩⟩
    · rw [hF] at h2
      cases h2
      cases g
      simp only at h1
      rw [h1]
    · rw [hF] at h2
      cases h2

theorem copy_m_Data (C O : Config) (t o : Nat) (m m1 : Memory β α ρ ε)
    (h : copy C O t o m = some m1) (g : manage_function β α ρ ε)
    (hg : (m.obj o).m_ManagerFctPtr = some g) (hs : g.SupportsCopying = true) :
    (m1.obj t).m_Data = (m.obj o).m_Data := by
  simp only [copy] at h
  split at h
  · cases h
    simp [hg, manage_function.call_Copy, hs, Memory.set_InvokeFctPtr_m_Data,
      Memory.set_ManagerFctPtr_m_Data, Memory.emit_obj, Memory.store_m_Data, data,
      Memory.load_m_Data]
  · cases h

theorem copy_m_Data_other (C O : Config) (t o i : Nat) (m m1 : Memory β α ρ ε)
    (h : copy C O t o m = some m1) (hi : i ≠ t) : (m1.obj i).m_Data = (m.obj i).m_Data := by
  have h2 : Loc.m_Data t ≠ Loc.m_Data i := fun e => hi (Loc.m_Data.inj e).symm
  simp only [copy] at h
  split at h
  · cases h
    cases hg : (m.obj o).m_ManagerFctPtr with
    | none => simp [Memory.set_InvokeFctPtr_m_Data, Memory.set_ManagerFctPtr_m_Data]
    | some g =>
      cases hs : g.SupportsCopying <;>
        simp [manage_function.call, manage_function.call_true, manage_function.call_primary,
          hs, Memory.set_InvokeFctPtr_m_Data, Memory.set_ManagerFctPtr_m_Data,
          Memory.emit_obj, Memory.store_m_Data, data, h2]
  · cases h

theorem operator_call_m_Data (t i : Nat) (args : α) (m : Memory β α ρ ε) (h : i ≠ t) :
    (((operator_call t args m).2).obj i).m_Data = (m.obj i).m_Data := by
  have h2 : Loc.m_Data t ≠ Loc.m_Data i := fun e => h (Loc.m_Data.inj e).symm
  simp only [operator_call, InvokeFctPtrType.apply]
  split <;> simp [Memory.store_m_Data, data, h2]

theorem operator_call_congr (i j : Nat) (args : α) (m m1 : Memory β α ρ ε)
    (hf : (m1.obj j).m_InvokeFctPtr = (m.obj i).m_InvokeFctPtr)
    (hd : ∀ F, (m.obj i).m_InvokeFctPtr = .invoke F → (m1.obj j).m_Data = (m.obj i).m_Data) :
    (operator_call j args m1).1 = (operator_call i args m).1 ∧
      ∀ F, (m.obj i).m_InvokeFctPtr = .invoke F →
        (((operator_call j args m1).2).obj j).m_Data =
          (((operator_call i args m).2).obj i).m_Data := by
  simp only [operator_call, hf]
  cases hi : (m.obj i).m_InvokeFctPtr with
  | DefaultFunction D => simp [InvokeFctPtrType.apply]
  | reinterpret_cast p => simp [InvokeFctPtrType.apply]
  | invoke F =>
    have e := hd F hi
    simp [InvokeFctPtrType.apply, data, Memory.load_m_Data, e, Memory.store_m_Data]

theorem results_congr (i j : Nat) (L : List α) : ∀ (m m1 : Memory β α ρ ε),
    (m1.obj j).m_InvokeFctPtr = (m.obj i).m_InvokeFctPtr →
    (∀ F, (m.obj i).m_InvokeFctPtr = .invoke F → (m1.obj j).m_Data = (m.obj i).m_Data) →
    results j L m1 = results i L m := by
  induction L with
  | nil => intro m m1 _ _; rfl
  | cons args rest ih =>
    intro m m1 hf hd
    have h := operator_call_congr i j args m m1 hf hd
    simp only [results, h.1]
    congr 1
    apply ih
    · rw [operator_call_m_InvokeFctPtr, operator_call_m_InvokeFctPtr, hf]
    · intro F hF
      rw [operator_call_m_InvokeFctPtr] at hF
      exact h.2 F hF

theorem run_m_InvokeFctPtr (t i : Nat) (L : List α) : ∀ (m : Memory β α ρ ε),
    ((run t L m).obj i).m_InvokeFctPtr = (m.obj i).m_InvokeFctPtr := by
  induction L with
  | nil => intro m; rfl
  | cons args rest ih =>
    intro m
    simp only [run]
    rw [ih, operator_call_m_InvokeFctPtr]

theorem run_m_Data (t i : Nat) (h : i ≠ t) (L : List α) : ∀ (m : Memory β α ρ ε),
    ((run t L m).obj i).m_Data = (m.obj i).m_Data := by
  induction L with
  | nil => intro m; rfl
  | cons args rest ih =>
    intro m
    simp only [run]
    rw [ih, operator_call_m_Data t i args m h]

end inplace_function

/-! ## Emptiness within one class -/

/-- A call of the target never shows as the container's own `std::bad_function_call`. -/
theorem Thrown.of_target_ne (r : Except ε ρ) : Thrown.of_target r ≠ .error .bad_function_call := by
  cases r <;> intro h <;> cases h

/-- The call operator throws the container's own `std::bad_function_call` exactly when the
invoker is the `DefaultFunction` of some class. -/
theorem inplace_function.operator_call_throws_iff (this : Nat) (args : α)
    (m : Memory β α ρ ε) :
    (operator_call this args m).1 = .error .bad_function_call ↔
      ∃ D, (m.obj this).m_InvokeFctPtr = .DefaultFunction D := by
  simp only [operator_call]
  cases h : (m.obj this).m_InvokeFctPtr with
  | DefaultFunction D => simp [InvokeFctPtrType.apply]
  | invoke F => simp [InvokeFctPtrType.apply, Thrown.of_target_ne]
  | reinterpret_cast ptr => simp [InvokeFctPtrType.apply, Thrown.of_target_ne]

/-- After a move between two containers of the same class the source converts to `false`,
throws when invoked, and has the manager it had. -/
theorem inplace_function.moved_from_same_class (C : Config) (d s : Nat) (args : α)
    (m m1 : Memory β α ρ ε) (hne : d ≠ s) (h : move C C d s m = some m1) :
    operator_bool C s m1 = false ∧
      (operator_call s args m1).1 = .error .bad_function_call ∧
      (m1.obj s).m_ManagerFctPtr = (m.obj s).m_ManagerFctPtr := by
  have hf : (m1.obj s).m_InvokeFctPtr = .DefaultFunction C := by
    rw [move_m_InvokeFctPtr C C d s s m m1 h]
    simp
  refine ⟨?_, ?_, ?_⟩
  · simp [operator_bool, hf, InvokeFctPtrType.ne_DefaultFunction]
  · exact (operator_call_throws_iff s args m1).2 ⟨C, hf⟩
  · rw [move_m_ManagerFctPtr C C d s s m m1 h]
    simp [Ne.symm hne]

/-! ## Construction and invocation -/

/-- C1: a target of type `FunctorT` that passes the checks of the constructors (size at
most `Capacity`, alignment dividing `Alignment`, copy constructible when the class is
copyable) is accepted by the constructor from an rvalue, and by the constructor from a
const reference when it has a copy constructor; invoking the constructed container with
any arguments gives what calling the target itself with these arguments gives. -/
theorem construct_then_invoke (C : Config) (this : Nat) (F : FunctorT β α ρ ε) (t : β)
    (m : Memory β α ρ ε)
    (hsize : F.sizeof ≤ C.Capacity) (halign : C.Alignment % F.alignof = 0)
    (hctor : C.Copyable = true → F.is_copy_constructible = true) :
    (F.is_copy_constructible = true → (ctor_functor_copy C this F t m).isSome = true) ∧
    (ctor_functor_move C this F t m).isSome = true ∧
    ∀ m1, (ctor_functor_copy C this F t m = some m1 ∨
        ctor_functor_move C this F t m = some m1) →
      ∀ args, (operator_call this args m1).1 = Thrown.of_target (F.call t args).1 := by
  have hc : C.Copyable = false ∨ F.is_copy_constructible = true := by
    cases h : C.Copyable
    · exact Or.inl rfl
    · exact Or.inr (hctor h)
  refine ⟨?_, ?_, ?_⟩
  · intro hcc
    simp [ctor_functor_copy, set_copy, hsize, halign, hcc]
  · simp only [ctor_functor_move, set_move, hc, hsize, halign, true_and, if_true]
    rw [if_pos hctor]
    rfl
  · intro m1 hm args
    have e : m1 = set_body C this F t m := by
      rcases hm with hm | hm
      · rw [ctor_functor_copy, if_pos hc] at hm
        exact set_copy_eq C this F t m m1 hm
      · rw [ctor_functor_move, if_pos hc] at hm
        exact set_move_eq C this F t m m1 hm
    subst e
    simp [operator_call, set_body, Memory.set_InvokeFctPtr, Memory.set_ManagerFctPtr,
      Memory.emit, Memory.store, Memory.load, data, InvokeFctPtrType.apply]

/-- The closure adding `k = 5`, constructed into a container of class `C32`, returns 8
when the container is invoked with 3. -/
theorem construct_then_invoke_witness :
    (ctor_functor_move C32 0 adder 5 (raw 0)).isSome = true ∧
    ∀ m1, (ctor_functor_copy C32 0 adder 5 (raw 0) = some m1 ∨
        ctor_functor_move C32 0 adder 5 (raw 0) = some m1) →
      (operator_call 0 3 m1).1 = .ok 8 :=
  have h := construct_then_invoke C32 0 adder 5 (raw 0) (by decide) (by decide)
    (fun _ => rfl)
  ⟨h.2.1, fun m1 hm => h.2.2 m1 hm 3⟩

/-- C2: a default constructed container converts to `false`, compares equal to the null
marker under `operator==` and not unequal under `operator!=`, and invoking it with any
arguments throws `std::bad_function_call` and changes nothing. -/
theorem default_constructed_is_empty (C : Config) (this : Nat) (args : α)
    (m : Memory β α ρ ε) :
    operator_bool C this (ctor_default C this m) = false ∧
    operator_eq_nullptr C this (ctor_default C this m) = true ∧
    operator_ne_nullptr C this (ctor_default C this m) = false ∧
    operator_call this args (ctor_default C this m) =
      (.error .bad_function_call, ctor_default C this m) := by
  simp [operator_bool, operator_eq_nullptr, operator_ne_nullptr, operator_call, ctor_default,
    Memory.set_InvokeFctPtr, Memory.set_ManagerFctPtr, InvokeFctPtrType.ne_DefaultFunction,
    InvokeFctPtrType.apply]

/-! ## Swap -/

/-- C3: `a.swap(b)` on two containers holding the closures adding 5 and adding 10. Before
the swap `a(3)` is 8 and `b(3)` is 13. The swap constructs over both targets from the
uninitialised `tempData`: afterwards both containers return 3 plus whatever `tempData`
held, so they do not return 13 and 8. -/
theorem swap_two_adders (junk : Int) :
    ∃ m, two_adders junk = some m ∧
      (operator_call 0 3 m).1 = .ok 8 ∧ (operator_call 1 3 m).1 = .ok 13 ∧
      (operator_call 0 3 (swap 0 1 m)).1 = .ok (3 + junk) ∧
      (operator_call 1 3 (swap 0 1 m)).1 = .ok (3 + junk) ∧
      ¬ ((operator_call 0 3 (swap 0 1 m)).1 = .ok 13 ∧
          (operator_call 1 3 (swap 0 1 m)).1 = .ok 8) := by
  refine ⟨_, rfl, rfl, rfl, rfl, rfl, ?_⟩
  intro h
  have h1 : (Except.ok (3 + junk) : Except (Thrown Unit) Int) = .ok 13 := h.1
  have h2 : (Except.ok (3 + junk) : Except (Thrown Unit) Int) = .ok 8 := h.2
  injection h1 with h1
  injection h2 with h2
  omega

/-- C4: swapping a container holding the closure adding 5 with a default constructed one,
from either side. The empty side's roles are exchanged (the former holder converts to
`false` and throws, the other converts to `true`), but the target is lost: the new holder
returns 3 plus what its own buffer held before, not 8. -/
theorem swap_adder_and_empty (junk : Int) :
    ∃ m, adder_and_empty junk = some m ∧
      (operator_call 0 3 m).1 = .ok 8 ∧
      operator_bool C32 0 (swap 0 1 m) = false ∧
      (operator_call 0 3 (swap 0 1 m)).1 = .error .bad_function_call ∧
      operator_bool C32 1 (swap 0 1 m) = true ∧
      (operator_call 1 3 (swap 0 1 m)).1 = .ok (3 + junk) ∧
      operator_bool C32 0 (swap 1 0 m) = false ∧
      (operator_call 0 3 (swap 1 0 m)).1 = .error .bad_function_call ∧
      operator_bool C32 1 (swap 1 0 m) = true ∧
      (operator_call 1 3 (swap 1 0 m)).1 = .ok (3 + junk) :=
  ⟨_, rfl, rfl, rfl, rfl, rfl, rfl, rfl, rfl, rfl, rfl⟩

/-- C5: construct two containers from closures, swap them, destroy both. Five target
objects are constructed (two by the constructors, three by the swap); neither of the two
original targets nor the object constructed in `tempData` is ever destroyed. -/
theorem swap_then_destroy_counts (junk : Int) :
    ∃ m, two_adders junk = some m ∧
      destroy_counts (dtor C32 1 (dtor C32 0 (swap 0 1 m))).trace =
        [(.m_Data 0, 0), (.m_Data 1, 0), (.m_Data 0, 1), (.m_Data 1, 1), (.tempData, 0)] :=
  ⟨_, rfl, rfl⟩

/-! ## Move -/

/-- C7: the scenario of the specification, a container of capacity 32 holding the closure
adding 5, move assigned into a container of capacity 64. The source keeps its manager and
throws `std::bad_function_call` when invoked, but its invoker is now the `DefaultFunction`
of the destination class, which is not the one of its own class: the moved-from source
converts to `true`, compares unequal to the null marker. -/
theorem moved_from_narrow_source :
    ∃ m m1, narrow_and_wide = some m ∧ assign_move C64 C32 1 0 m = some m1 ∧
      (operator_call 0 3 m1).1 = .error .bad_function_call ∧
      (m1.obj 0).m_ManagerFctPtr = (m.obj 0).m_ManagerFctPtr ∧
      (m1.obj 0).m_InvokeFctPtr = .DefaultFunction C64 ∧
      operator_bool C32 0 m1 = true ∧
      operator_eq_nullptr C32 0 m1 = false ∧
      operator_bool C32 2 (ctor_default C32 2 m1) = false :=
  ⟨_, _, rfl, rfl, rfl, rfl, rfl, rfl, rfl, rfl⟩

/-! ## Copy -/

/-- Copies through the overloads that take a const reference: let the original `c` of
copyable class `O` satisfy the invariant of the pointer members, and let `d` be another
container, of a copyable class `C` that accepts `O`. Then the copy constructors and
`operator=(const inplace_function<...>&)` of `d` from `c` are accepted; they leave the invoker,
the manager and the target of `c` as they were; `d` and `c` then return the same results
for the same invocations; and no sequence of invocations of one of them changes the
results of any later invocations of the other. -/
theorem copy_is_independent (C O : Config) (d c : Nat) (m : Memory β α ρ ε)
    (hne : d ≠ c) (hcap : O.Capacity ≤ C.Capacity) (halign : C.Alignment % O.Alignment = 0)
    (hC : C.Copyable = true) (hO : O.Copyable = true) (hc : coherent O (m.obj c)) :
    (ctor_copy C O d c m).isSome = true ∧ (assign_copy C O d c m).isSome = true ∧
    ∀ m1, (ctor_copy C O d c m = some m1 ∨ assign_copy C O d c m = some m1) →
      (m1.obj c).m_InvokeFctPtr = (m.obj c).m_InvokeFctPtr ∧
      (m1.obj c).m_ManagerFctPtr = (m.obj c).m_ManagerFctPtr ∧
      (m1.obj c).m_Data = (m.obj c).m_Data ∧
      (∀ args, (operator_call d args m1).1 = (operator_call c args m1).1) ∧
      (∀ L, results d L m1 = results c L m1) ∧
      (∀ Ld Lc, results c Lc (run d Ld m1) = results c Lc m1) ∧
      (∀ Lc Ld, results d Ld (run c Lc m1) = results d Ld m1) := by
  have hcond : O.Capacity ≤ C.Capacity ∧ C.Alignment % O.Alignment = 0 ∧
      C.Copyable = true ∧ O.Copyable = true := ⟨hcap, halign, hC, hO⟩
  refine ⟨?_, ?_, ?_⟩
  · rw [ctor_copy, copy, if_pos hcond]
    rfl
  · rw [assign_copy, copy, if_pos hcond]
    rfl
  · intro m1 hm
    have hp := coherent_paired O _ hc
    have hcd : c ≠ d := Ne.symm hne
    obtain ⟨m0, hcopy, hf0, hg0, hd0⟩ : ∃ m0, copy C O d c m0 = some m1 ∧
        (m0.obj c).m_InvokeFctPtr = (m.obj c).m_InvokeFctPtr ∧
        (m0.obj c).m_ManagerFctPtr = (m.obj c).m_ManagerFctPtr ∧
        (m0.obj c).m_Data = (m.obj c).m_Data := by
      rcases hm with hm | hm
      · exact ⟨m, hm, rfl, rfl, rfl⟩
      · refine ⟨clear C d m, hm, ?_, ?_, ?_⟩
        · simp [clear_m_InvokeFctPtr, hcd]
        · simp [clear_m_ManagerFctPtr, hcd]
        · exact clear_m_Data C d c m hcd
    have hf1 : (m1.obj c).m_InvokeFctPtr = (m.obj c).m_InvokeFctPtr := by
      rw [copy_m_InvokeFctPtr C O d c c m0 m1 hcopy]
      simp [hcd, hf0]
    have hg1 : (m1.obj c).m_ManagerFctPtr = (m.obj c).m_ManagerFctPtr := by
      rw [copy_m_ManagerFctPtr C O d c c m0 m1 hcopy]
      simp [hcd, hg0]
    have hd1 : (m1.obj c).m_Data = (m.obj c).m_Data := by
      rw [copy_m_Data_other C O d c c m0 m1 hcopy hcd, hd0]
    have hfd : (m1.obj d).m_InvokeFctPtr = (m1.obj c).m_InvokeFctPtr := by
      rw [hf1, copy_m_InvokeFctPtr C O d c d m0 m1 hcopy]
      simp [hf0]
    have hdd : ∀ F, (m1.obj c).m_InvokeFctPtr = .invoke F →
        (m1.obj d).m_Data = (m1.obj c).m_Data := by
      intro F hF
      rw [hf1] at hF
      have hg := hp F hF
      rw [← hg0] at hg
      rw [hd1, copy_m_Data C O d c m0 m1 hcopy _ hg hO, hd0]
    refine ⟨hf1, hg1, hd1, ?_, ?_, ?_, ?_⟩
    · intro args
      exact (operator_call_congr c d args m1 m1 hfd hdd).1
    · intro L
      exact results_congr c d L m1 m1 hfd hdd
    · intro Ld Lc
      exact results_congr c c Lc m1 _ (run_m_InvokeFctPtr d c Ld m1)
        (fun _ _ => run_m_Data d c hcd Ld m1)
    · intro Lc Ld
      exact results_congr d d Ld m1 _ (run_m_InvokeFctPtr c d Lc m1)
        (fun _ _ => run_m_Data c d hne Lc m1)

/-- An accumulating closure holding 10 is copied; the copy is invoked with 1 and with 2
(returning 11 and 13), after which the original still returns 15 when invoked with 5. -/
theorem copy_is_independent_witness :
    ∃ m1, ctor_copy C32 C32 1 0 (set_body C32 0 accumulator 10 (raw 0)) = some m1 ∧
      results 1 [1, 2] m1 = [.ok 11, .ok 13] ∧
      results 0 [5] (run 1 [1, 2] m1) = [.ok 15] := by
  have h := copy_is_independent C32 C32 1 0 (set_body C32 0 accumulator 10 (raw 0))
    (by decide) (by decide) (by decide) rfl rfl (coherent_functor C32 _ accumulator rfl rfl)
  obtain ⟨m1, hm1⟩ := Option.isSome_iff_exists.mp h.1
  have h2 := h.2.2 m1 (Or.inl hm1)
  refine ⟨m1, hm1, ?_, ?_⟩
  · rw [h2.2.2.2.2.1]
    cases hm1
    rfl
  · rw [h2.2.2.2.2.2.1 [1, 2] [5]]
    cases hm1
    rfl

/-! ## Reachable states -/

/-- C9, as stated, fails in both directions. After `b` is move constructed from `a`, which
holds a closure, `a` is Empty (converts to `false`) and its manager is not null. After
construction from a plain function pointer the container is Occupied (converts to `true`)
and its manager is null. -/
theorem manager_null_iff_empty_counterexample :
    (∃ (Γ : Nat → Option Config) (m : Memory Int Int Int Unit), Reachable true Γ m ∧
      Γ 0 = some C32 ∧ (m.obj 0).m_ManagerFctPtr ≠ none ∧ operator_bool C32 0 m = false ∧
      ¬ ((m.obj 0).m_ManagerFctPtr = none ↔ operator_bool C32 0 m = false)) ∧
    (∃ (Γ : Nat → Option Config) (m : Memory Int Int Int Unit), Reachable true Γ m ∧
      Γ 0 = some C32 ∧ (m.obj 0).m_ManagerFctPtr = none ∧ operator_bool C32 0 m = true ∧
      ¬ ((m.obj 0).m_ManagerFctPtr = none ↔ operator_bool C32 0 m = false)) := by
  have r0 : Reachable true (fun _ => none) (raw 0) := Reachable.start _ rfl
  constructor
  · have r1 := Reachable.ctor_functor_copy C32 0 adder 5 (set_body C32 0 adder 5 (raw 0))
      r0 rfl rfl
    obtain ⟨m2, h2⟩ : ∃ m2, ctor_move C32 C32 1 0 (set_body C32 0 adder 5 (raw 0)) = some m2 :=
      ⟨_, rfl⟩
    have r2 := Reachable.ctor_move C32 C32 1 0 m2 r1 rfl rfl h2
    have hg : (m2.obj 0).m_ManagerFctPtr = some ⟨adder, true⟩ := by cases h2; rfl
    have hb : operator_bool C32 0 m2 = false := by cases h2; rfl
    have hn : (m2.obj 0).m_ManagerFctPtr ≠ none := by rw [hg]; exact Option.some_ne_none _
    exact ⟨_, m2, r2, rfl, hn, hb, fun h => hn (h.2 hb)⟩
  · have r1 := Reachable.ctor_ptr C32 0 (fun x : Int => (.ok x : Except Unit Int)) r0 rfl
    refine ⟨_, _, r1, rfl, rfl, rfl, fun h => ?_⟩
    have hb := h.1 rfl
    cases hb

/-- C9, amended: in every reachable state and for every constructed container, a null
manager means that the invoker is a `DefaultFunction` or a plain function pointer, never
a functor invoker; a manager `manage_function<FunctorT, SupportsCopying>` means that
`SupportsCopying` is the `Copyable` of the class and that the invoker is `invoke<FunctorT>`
of the same type or a `DefaultFunction` (the container was moved from). -/
theorem reachable_manager_invoker {swaps : Bool} {Γ : Nat → Option Config}
    {m : Memory β α ρ ε} (h : Reachable swaps Γ m) (i : Nat) (C : Config) (hi : Γ i = some C) :
    ((m.obj i).m_ManagerFctPtr = none →
      (∃ D, (m.obj i).m_InvokeFctPtr = .DefaultFunction D) ∨
        ∃ ptr, (m.obj i).m_InvokeFctPtr = .reinterpret_cast ptr) ∧
    (∀ g, (m.obj i).m_ManagerFctPtr = some g →
      g.SupportsCopying = C.Copyable ∧
        ((m.obj i).m_InvokeFctPtr = .invoke g.F ∨
          ∃ D, (m.obj i).m_InvokeFctPtr = .DefaultFunction D)) := by
  have hc := reachable_coherent h i C hi
  unfold coherent at hc
  constructor
  · intro hg
    rw [hg] at hc
    cases hf : (m.obj i).m_InvokeFctPtr with
    | DefaultFunction D => exact Or.inl ⟨D, rfl⟩
    | reinterpret_cast ptr => exact Or.inr ⟨ptr, rfl⟩
    | invoke F => exact absurd hf (hc F)
  · intro g hg
    rw [hg] at hc
    exact hc

/-- After `b` is move constructed from `a`, which holds the closure adding 5, the manager
of `a` is still the one of the closure type and its invoker is a `DefaultFunction`. -/
theorem reachable_manager_invoker_witness :
    ∃ (m : Memory Int Int Int Unit),
      ctor_move C32 C32 1 0 (set_body C32 0 adder 5 (raw 0)) = some m ∧
      (m.obj 0).m_ManagerFctPtr = some ⟨adder, true⟩ ∧
      ((m.obj 0).m_InvokeFctPtr = .invoke adder ∨
        ∃ D, (m.obj 0).m_InvokeFctPtr = .DefaultFunction D) := by
  have r0 : Reachable true (fun _ => none) (raw 0) := Reachable.start _ rfl
  have r1 := Reachable.ctor_functor_copy C32 0 adder 5 (set_body C32 0 adder 5 (raw 0))
    r0 rfl rfl
  obtain ⟨m2, h2⟩ : ∃ m2, ctor_move C32 C32 1 0 (set_body C32 0 adder 5 (raw 0)) = some m2 :=
    ⟨_, rfl⟩
  have r2 := Reachable.ctor_move C32 C32 1 0 m2 r1 rfl rfl h2
  have hg : (m2.obj 0).m_ManagerFctPtr = some ⟨adder, true⟩ := by cases h2; rfl
  exact ⟨m2, h2, hg, ((reachable_manager_invoker r2 0 C32 rfl).2 _ hg).2⟩

/-! ## Invocation of a widened copy -/

/-- C10: a default constructed container of capacity 32 is copy constructed into a
container of capacity 64. The copy holds the `DefaultFunction` of the narrow class, which
is not the one of its own class: it converts to `true` and compares unequal to the null
marker, yet every invocation throws `std::bad_function_call`. -/
theorem widened_copy_of_empty :
    ∃ (Γ : Nat → Option Config) (m : Memory Int Int Int Unit), Reachable true Γ m ∧
      Γ 1 = some C64 ∧
      ctor_copy C64 C32 1 0 (ctor_default C32 0 (raw 0)) = some m ∧
      operator_bool C64 1 m = true ∧ operator_eq_nullptr C64 1 m = false ∧
      ∀ args, (operator_call 1 args m).1 = .error .bad_function_call := by
  have r0 : Reachable true (fun _ => none) (raw 0) := Reachable.start _ rfl
  have r1 := Reachable.ctor_default C32 0 r0 rfl
  obtain ⟨m2, h2⟩ : ∃ m2, ctor_copy C64 C32 1 0 (ctor_default C32 0 (raw 0)) = some m2 :=
    ⟨_, rfl⟩
  have r2 := Reachable.ctor_copy C64 C32 1 0 m2 r1 rfl rfl h2
  refine ⟨_, m2, r2, rfl, h2, ?_, ?_, ?_⟩
  · cases h2; rfl
  · cases h2; rfl
  · intro args; cases h2; rfl

/-! ## Manager events of each member function -/

theorem Memory.store_trace (m : Memory β α ρ ε) (p : Loc) (v : β) :
    (m.store p v).trace = m.trace := by
  cases p <;> rfl

theorem manage_function.call_Move_trace (g : manage_function β α ρ ε) (p q : Loc)
    (m : Memory β α ρ ε) :
    (g.call p (some q) .Move m).trace = m.trace ++ [.construct p] := by
  simp [manage_function.call_Move, Memory.emit, Memory.store_trace]

theorem manage_function.call_Copy_trace (g : manage_function β α ρ ε) (p q : Loc)
    (m : Memory β α ρ ε) (h : g.SupportsCopying = true) :
    (g.call p (some q) .Copy m).trace = m.trace ++ [.construct p] := by
  simp [manage_function.call_Copy, h, Memory.emit, Memory.store_trace]

theorem manage_function.call_Destroy_trace (g : manage_function β α ρ ε) (p : Loc)
    (q : Option Loc) (m : Memory β α ρ ε) :
    (g.call p q .Destroy m).trace = m.trace ++ [.destroy p] := by
  simp [manage_function.call_Destroy, Memory.emit, Memory.store_trace]

namespace inplace_function

theorem clear_trace (C : Config) (t : Nat) (m : Memory β α ρ ε) :
    (clear C t m).trace =
      m.trace ++ if (m.obj t).m_ManagerFctPtr.isSome then [.destroy (data t)] else [] := by
  simp only [clear]
  have hg : ((m.set_InvokeFctPtr t (.DefaultFunction C)).obj t).m_ManagerFctPtr =
      (m.obj t).m_ManagerFctPtr := Memory.set_InvokeFctPtr_m_ManagerFctPtr m t t _
  rw [hg]
  cases (m.obj t).m_ManagerFctPtr with
  | none => simp [Memory.set_ManagerFctPtr, Memory.set_InvokeFctPtr]
  | some g =>
    simp [Memory.set_ManagerFctPtr, manage_function.call_Destroy_trace,
      Memory.set_InvokeFctPtr]

theorem copy_trace (C O : Config) (t o : Nat) (m m1 : Memory β α ρ ε)
    (h : copy C O t o m = some m1)
    (hs : ∀ g, (m.obj o).m_ManagerFctPtr = some g → g.SupportsCopying = true) :
    m1.trace =
      m.trace ++ if (m.obj o).m_ManagerFctPtr.isSome then [.construct (data t)] else [] := by
  simp only [copy] at h
  split at h
  · cases h
    cases hg : (m.obj o).m_ManagerFctPtr with
    | none => simp [Memory.set_ManagerFctPtr, Memory.set_InvokeFctPtr]
    | some g =>
      simp [Memory.set_ManagerFctPtr, Memory.set_InvokeFctPtr,
        manage_function.call_Copy_trace, hs g hg]
  · cases h

theorem move_trace (C O : Config) (t o : Nat) (m m1 : Memory β α ρ ε)
    (h : move C O t o m = some m1) :
    m1.trace =
      m.trace ++ if (m.obj o).m_ManagerFctPtr.isSome then [.construct (data t)] else [] := by
  simp only [move] at h
  split at h
  · cases h
    cases hg : (m.obj o).m_ManagerFctPtr with
    | none => simp [Memory.set_ManagerFctPtr, Memory.set_InvokeFctPtr]
    | some g =>
      simp [Memory.set_ManagerFctPtr, Memory.set_InvokeFctPtr,
        manage_function.call_Move_trace]
  · cases h

theorem set_body_trace (C : Config) (t : Nat) (F : FunctorT β α ρ ε) (v : β)
    (m : Memory β α ρ ε) :
    (set_body C t F v m).trace = m.trace ++ [.construct (data t)] := by
  simp [set_body, Memory.set_ManagerFctPtr, Memory.set_InvokeFctPtr, Memory.emit,
    Memory.store_trace]

theorem operator_call_trace (t : Nat) (args : α) (m : Memory β α ρ ε) :
    ((operator_call t args m).2).trace = m.trace := by
  simp only [operator_call, InvokeFctPtrType.apply]
  split <;> simp [Memory.store_trace]

end inplace_function

/-! ## Lifetimes of target objects -/

theorem lifetimes_append (t : List Event) (e : Event) :
    lifetimes (t ++ [e]) = lifetimes_step (lifetimes t) e := by
  simp [lifetimes, List.foldl_append]

theorem lifetimes_foldl_none (t : List Event) : t.foldl lifetimes_step none = none := by
  induction t with
  | nil => rfl
  | cons e rest ih => simpa [List.foldl, lifetimes_step] using ih

/-- An object constructed into a buffer that holds none is destroyed no time before the
next construction there. -/
theorem destroy_count_dead (p : Loc) (t : List Event) : ∀ (live live1 : Loc → Bool),
    t.foldl lifetimes_step (some live) = some live1 → live p = false →
    destroy_count p t = 0 := by
  induction t with
  | nil => intro _ _ _ _; rfl
  | cons e rest ih =>
    intro live live1 h hp
    cases e with
    | unexpected_operation =>
      simp only [List.foldl, lifetimes_step, Option.some_bind] at h
      simpa [destroy_count] using ih live live1 h hp
    | construct q =>
      simp only [List.foldl, lifetimes_step, Option.some_bind] at h
      by_cases hq : q = p
      · simp [destroy_count, hq]
      · by_cases hl : live q = true
        · rw [if_pos hl, lifetimes_foldl_none] at h; cases h
        · rw [if_neg hl] at h
          simp only [destroy_count, hq, if_false]
          exact ih _ live1 h (by rw [Function.update_noteq (Ne.symm hq)]; exact hp)
    | destroy q =>
      simp only [List.foldl, lifetimes_step, Option.some_bind] at h
      by_cases hl : live q = true
      · rw [if_pos hl] at h
        have hq : q ≠ p := fun e => by rw [e, hp] at hl; cases hl
        simp only [destroy_count, hq, if_false, Nat.zero_add]
        exact ih _ live1 h (by rw [Function.update_noteq (Ne.symm hq)]; exact hp)
      · rw [if_neg hl, lifetimes_foldl_none] at h; cases h

/-- An object in a buffer that is without one in the end is destroyed once before the next
construction there. -/
theorem destroy_count_live (p : Loc) (t : List Event) : ∀ (live live1 : Loc → Bool),
    t.foldl lifetimes_step (some live) = some live1 → live p = true → live1 p = false →
    destroy_count p t = 1 := by
  induction t with
  | nil =>
    intro live live1 h hp hp1
    simp only [List.foldl, Option.some.injEq] at h
    rw [← h, hp] at hp1; cases hp1
  | cons e rest ih =>
    intro live live1 h hp hp1
    cases e with
    | unexpected_operation =>
      simp only [List.foldl, lifetimes_step, Option.some_bind] at h
      simpa [destroy_count] using ih live live1 h hp hp1
    | construct q =>
      simp only [List.foldl, lifetimes_step, Option.some_bind] at h
      by_cases hl : live q = true
      · rw [if_pos hl, lifetimes_foldl_none] at h; cases h
      · rw [if_neg hl] at h
        have hq : q ≠ p := fun e => hl (e ▸ hp)
        simp only [destroy_count, hq, if_false]
        exact ih _ live1 h (by rw [Function.update_noteq (Ne.symm hq)]; exact hp) hp1
    | destroy q =>
      simp only [List.foldl, lifetimes_step, Option.some_bind] at h
      by_cases hl : live q = true
      · rw [if_pos hl] at h
        by_cases hq : q = p
        · subst hq
          simp only [destroy_count, if_true]
          rw [destroy_count_dead q rest _ live1 h (by simp)]
        · simp only [destroy_count, hq, if_false, Nat.zero_add]
          exact ih _ live1 h (by rw [Function.update_noteq (Ne.symm hq)]; exact hp) hp1
      · rw [if_neg hl, lifetimes_foldl_none] at h; cases h

/-- When no event breaks a lifetime and no buffer holds an object in the end, every
constructed object was destroyed exactly once. -/
theorem destroy_counts_of_lifetimes (t : List Event) : ∀ (live live1 : Loc → Bool),
    t.foldl lifetimes_step (some live) = some live1 → (∀ p, live1 p = false) →
    ∀ x ∈ destroy_counts t, x.2 = 1 := by
  induction t with
  | nil => intro _ _ _ _ x hx; cases hx
  | cons e rest ih =>
    intro live live1 h h1 x hx
    cases e with
    | unexpected_operation =>
      simp only [List.foldl, lifetimes_step, Option.some_bind] at h
      exact ih live live1 h h1 x (by simpa [destroy_counts] using hx)
    | construct q =>
      simp only [List.foldl, lifetimes_step, Option.some_bind] at h
      by_cases hl : live q = true
      · rw [if_pos hl, lifetimes_foldl_none] at h; cases h
      · rw [if_neg hl] at h
        simp only [destroy_counts, List.mem_cons] at hx
        rcases hx with hx | hx
        · rw [hx]
          exact destroy_count_live q rest _ live1 h (by simp) (h1 q)
        · exact ih _ live1 h h1 x hx
    | destroy q =>
      simp only [List.foldl, lifetimes_step, Option.some_bind] at h
      by_cases hl : live q = true
      · rw [if_pos hl] at h
        exact ih _ live1 h h1 x (by simpa [destroy_counts] using hx)
      · rw [if_neg hl, lifetimes_foldl_none] at h; cases h

/-- One step of `tracked`: the container at `t` changes whether its buffer is to hold an
object, and the events added are the matching construction or destruction. -/
theorem tracked_update {Γ Γ1 : Nat → Option Config} {m m1 : Memory β α ρ ε}
    (h : tracked Γ m) (t : Nat)
    (hΓ : ∀ i, i ≠ t → Γ1 i = Γ i)
    (hm : ∀ i, i ≠ t → (m1.obj i).m_ManagerFctPtr = (m.obj i).m_ManagerFctPtr)
    (b b1 : Bool) (hb : holds_target Γ m (.m_Data t) = b)
    (hb1 : holds_target Γ1 m1 (.m_Data t) = b1)
    (ht : m1.trace = m.trace ++
      if b = b1 then [] else if b1 = true then [.construct (.m_Data t)]
        else [.destroy (.m_Data t)]) : tracked Γ1 m1 := by
  obtain ⟨live, hl, hlive⟩ := h
  have hother : ∀ q, q ≠ Loc.m_Data t → holds_target Γ1 m1 q = holds_target Γ m q := by
    intro q hq
    cases q with
    | tempData => rfl
    | m_Data i =>
      have hi : i ≠ t := fun e => hq (by rw [e])
      simp [holds_target, hΓ i hi, hm i hi]
  cases b <;> cases b1
  · refine ⟨live, ?_, ?_⟩
    · rw [ht]; simpa using hl
    · intro q
      by_cases hq : q = Loc.m_Data t
      · rw [hq, hb1, hlive, hb]
      · rw [hother q hq, hlive]
  · refine ⟨Function.update live (.m_Data t) true, ?_, ?_⟩
    · rw [ht]
      simp only [Bool.false_eq_true, if_false, if_true]
      rw [lifetimes_append, hl]
      simp [lifetimes_step, hlive, hb]
    · intro q
      by_cases hq : q = Loc.m_Data t
      · rw [hq, hb1]; simp
      · rw [hother q hq, Function.update_noteq hq, hlive]
  · refine ⟨Function.update live (.m_Data t) false, ?_, ?_⟩
    · rw [ht]
      simp only [Bool.true_eq_false, Bool.false_eq_true, if_false]
      rw [lifetimes_append, hl]
      simp [lifetimes_step, hlive, hb]
    · intro q
      by_cases hq : q = Loc.m_Data t
      · rw [hq, hb1]; simp
      · rw [hother q hq, Function.update_noteq hq, hlive]
  · refine ⟨live, ?_, ?_⟩
    · rw [ht]; simpa using hl
    · intro q
      by_cases hq : q = Loc.m_Data t
      · rw [hq, hb1, hlive, hb]
      · rw [hother q hq, hlive]

theorem tracked_clear {Γ Γ1 : Nat → Option Config} {m : Memory β α ρ ε}
    (h : tracked Γ m) (C D : Config) (t : Nat) (ht : Γ t = some D)
    (hΓ : ∀ i, i ≠ t → Γ1 i = Γ i) : tracked Γ1 (clear C t m) := by
  refine tracked_update h t hΓ (fun i hi => by simp [clear_m_ManagerFctPtr, hi])
    (m.obj t).m_ManagerFctPtr.isSome false (by simp [holds_target, ht])
    (by simp [holds_target, clear_m_ManagerFctPtr]) ?_
  rw [clear_trace]
  cases (m.obj t).m_ManagerFctPtr.isSome <;> simp [data]

theorem tracked_set_body {Γ Γ1 : Nat → Option Config} {m : Memory β α ρ ε}
    (h : tracked Γ m) (C : Config) (t : Nat) (F : FunctorT β α ρ ε) (v : β)
    (hb : holds_target Γ m (.m_Data t) = false) (ht : (Γ1 t).isSome = true)
    (hΓ : ∀ i, i ≠ t → Γ1 i = Γ i) : tracked Γ1 (set_body C t F v m) := by
  refine tracked_update h t hΓ (fun i hi => by simp [set_body_m_ManagerFctPtr, hi])
    false true hb (by simp [holds_target, set_body_m_ManagerFctPtr, ht]) ?_
  rw [set_body_trace]
  simp [data]

theorem tracked_copy {Γ Γ1 : Nat → Option Config} {m m1 : Memory β α ρ ε}
    (h : tracked Γ m) (C O : Config) (t o : Nat) (hc : copy C O t o m = some m1)
    (hs : ∀ g, (m.obj o).m_ManagerFctPtr = some g → g.SupportsCopying = true)
    (hb : holds_target Γ m (.m_Data t) = false) (ht : (Γ1 t).isSome = true)
    (hΓ : ∀ i, i ≠ t → Γ1 i = Γ i) : tracked Γ1 m1 := by
  refine tracked_update h t hΓ
    (fun i hi => by simp [copy_m_ManagerFctPtr C O t o i m m1 hc, hi])
    false (m.obj o).m_ManagerFctPtr.isSome hb
    (by simp [holds_target, copy_m_ManagerFctPtr C O t o t m m1 hc, ht]) ?_
  rw [copy_trace C O t o m m1 hc hs]
  cases (m.obj o).m_ManagerFctPtr.isSome <;> simp [data]

theorem tracked_move {Γ Γ1 : Nat → Option Config} {m m1 : Memory β α ρ ε}
    (h : tracked Γ m) (C O : Config) (t o : Nat) (hc : move C O t o m = some m1)
    (hb : holds_target Γ m (.m_Data t) = false) (ht : (Γ1 t).isSome = true)
    (hΓ : ∀ i, i ≠ t → Γ1 i = Γ i) : tracked Γ1 m1 := by
  refine tracked_update h t hΓ
    (fun i hi => by simp [move_m_ManagerFctPtr C O t o i m m1 hc, hi])
    false (m.obj o).m_ManagerFctPtr.isSome hb
    (by simp [holds_target, move_m_ManagerFctPtr C O t o t m m1 hc, ht]) ?_
  rw [move_trace C O t o m m1 hc]
  cases (m.obj o).m_ManagerFctPtr.isSome <;> simp [data]

theorem tracked_unmanaged {Γ Γ1 : Nat → Option Config} {m m1 : Memory β α ρ ε}
    (h : tracked Γ m) (t : Nat) (htr : m1.trace = m.trace)
    (hm : ∀ i, (m1.obj i).m_ManagerFctPtr =
      if i = t then none else (m.obj i).m_ManagerFctPtr)
    (hb : holds_target Γ m (.m_Data t) = false)
    (hΓ : ∀ i, i ≠ t → Γ1 i = Γ i) : tracked Γ1 m1 := by
  refine tracked_update h t hΓ (fun i hi => by simp [hm, hi]) false false hb
    (by simp [holds_target, hm]) ?_
  simp [htr]

theorem tracked_same {Γ : Nat → Option Config} {m m1 : Memory β α ρ ε}
    (h : tracked Γ m) (htr : m1.trace = m.trace)
    (hm : ∀ i, (m1.obj i).m_ManagerFctPtr = (m.obj i).m_ManagerFctPtr) : tracked Γ m1 := by
  obtain ⟨live, hl, hlive⟩ := h
  refine ⟨live, by rw [htr]; exact hl, ?_⟩
  intro q
  rw [hlive]
  cases q with
  | tempData => rfl
  | m_Data i => simp [holds_target, hm]

theorem holds_target_fresh {Γ : Nat → Option Config} (m : Memory β α ρ ε) (t : Nat)
    (h : Γ t = none) : holds_target Γ m (.m_Data t) = false := by
  simp [holds_target, h]

theorem holds_target_clear (Γ : Nat → Option Config) (C : Config) (m : Memory β α ρ ε)
    (t : Nat) : holds_target Γ (clear C t m) (.m_Data t) = false := by
  simp [holds_target, clear_m_ManagerFctPtr]

theorem inplace_function.copy_other_Copyable (C O : Config) (t o : Nat)
    (m m1 : Memory β α ρ ε) (h : copy C O t o m = some m1) : O.Copyable = true := by
  simp only [copy] at h
  split at h
  · rename_i hc; exact hc.2.2.2
  · cases h

theorem inplace_function.coherent_SupportsCopying (O : Config) (x : inplace_function β α ρ ε)
    (h : coherent O x) (hO : O.Copyable = true) :
    ∀ g, x.m_ManagerFctPtr = some g → g.SupportsCopying = true := by
  intro g hg
  unfold coherent at h
  rw [hg] at h
  rw [h.1, hO]

/-- Without `swap`, the manager events of every reachable state are tracked. -/
theorem reachable_tracked {Γ : Nat → Option Config} {m : Memory β α ρ ε}
    (h : Reachable false Γ m) : tracked Γ m := by
  induction h with
  | start m ht =>
    exact ⟨fun _ => false, by rw [ht]; rfl, fun p => by cases p <;> simp [holds_target]⟩
  | ctor_default C t _ ht ih =>
    exact tracked_unmanaged ih t rfl (fun i => ctor_default_m_ManagerFctPtr C t i _)
      (holds_target_fresh _ t ht) (fun i hi => Function.update_noteq hi _ _)
  | ctor_nullptr C t _ ht ih =>
    exact tracked_unmanaged ih t rfl (fun i => set_nullptr_m_ManagerFctPtr C t i _)
      (holds_target_fresh _ t ht) (fun i hi => Function.update_noteq hi _ _)
  | ctor_ptr C t ptr _ ht ih =>
    exact tracked_unmanaged ih t rfl (fun i => set_ptr_m_ManagerFctPtr t i ptr _)
      (holds_target_fresh _ t ht) (fun i hi => Function.update_noteq hi _ _)
  | ctor_functor_copy C t F c m1 _ ht hm ih =>
    simp only [ctor_functor_copy] at hm
    split at hm
    · have hm1 := set_copy_eq C t F c _ m1 hm
      subst hm1
      exact tracked_set_body ih C t F c (holds_target_fresh _ t ht) (by simp)
        (fun i hi => Function.update_noteq hi _ _)
    · cases hm
  | ctor_functor_move C t F c m1 _ ht hm ih =>
    simp only [ctor_functor_move] at hm
    split at hm
    · have hm1 := set_move_eq C t F c _ m1 hm
      subst hm1
      exact tracked_set_body ih C t F c (holds_target_fresh _ t ht) (by simp)
        (fun i hi => Function.update_noteq hi _ _)
    · cases hm
  | ctor_copy C O t o m1 hr ht ho hm ih =>
    simp only [ctor_copy] at hm
    exact tracked_copy ih C O t o hm
      (coherent_SupportsCopying O _ (reachable_coherent hr o O ho)
        (copy_other_Copyable C O t o _ m1 hm))
      (holds_target_fresh _ t ht) (by simp) (fun i hi => Function.update_noteq hi _ _)
  | ctor_move C O t o m1 hr ht ho hm ih =>
    simp only [ctor_move] at hm
    split at hm
    · exact tracked_move ih C O t o hm (holds_target_fresh _ t ht) (by simp)
        (fun i hi => Function.update_noteq hi _ _)
    · cases hm
  | assign_copy C O t o m1 hr ht ho hm ih =>
    simp only [assign_copy] at hm
    have h1 : tracked _ (clear C t _) := tracked_clear ih C C t ht (fun _ _ => rfl)
    refine tracked_copy h1 C O t o hm ?_ (holds_target_clear _ C _ t) (by simp [ht])
      (fun _ _ => rfl)
    intro g hg
    rw [clear_m_ManagerFctPtr] at hg
    by_cases e : o = t
    · simp [e] at hg
    · simp only [e, if_false] at hg
      exact coherent_SupportsCopying O _ (reachable_coherent hr o O ho)
        (copy_other_Copyable C O t o _ m1 hm) g hg
  | assign_move C O t o m1 hr ht ho hm ih =>
    simp only [assign_move] at hm
    split at hm
    · have h1 : tracked _ (clear C t _) := tracked_clear ih C C t ht (fun _ _ => rfl)
      exact tracked_move h1 C O t o hm (holds_target_clear _ C _ t) (by simp [ht])
        (fun _ _ => rfl)
    · cases hm
  | assign_functor_copy C t F c m1 _ ht hm ih =>
    simp only [assign_functor_copy] at hm
    have hm1 := set_copy_eq C t F c _ m1 hm
    subst hm1
    have h1 : tracked _ (clear C t _) := tracked_clear ih C C t ht (fun _ _ => rfl)
    exact tracked_set_body h1 C t F c (holds_target_clear _ C _ t) (by simp [ht])
      (fun _ _ => rfl)
  | assign_functor_move C t F c m1 _ ht hm ih =>
    simp only [assign_functor_move] at hm
    have hm1 := set_move_eq C t F c _ m1 hm
    subst hm1
    have h1 : tracked _ (clear C t _) := tracked_clear ih C C t ht (fun _ _ => rfl)
    exact tracked_set_body h1 C t F c (holds_target_clear _ C _ t) (by simp [ht])
      (fun _ _ => rfl)
  | assign_nullptr C t _ ht ih =>
    have h1 : tracked _ (clear C t _) := tracked_clear ih C C t ht (fun _ _ => rfl)
    exact tracked_unmanaged h1 t rfl
      (fun i => by
        simp only [assign_nullptr, set_nullptr_m_ManagerFctPtr])
      (holds_target_clear _ C _ t) (fun _ _ => rfl)
  | assign_ptr C t ptr _ ht ih =>
    have h1 : tracked _ (clear C t _) := tracked_clear ih C C t ht (fun _ _ => rfl)
    exact tracked_unmanaged h1 t rfl
      (fun i => by
        simp only [assign_ptr, set_ptr_m_ManagerFctPtr])
      (holds_target_clear _ C _ t) (fun _ _ => rfl)
  | operator_call C t args _ ht ih =>
    exact tracked_same ih (operator_call_trace t args _)
      (fun i => operator_call_m_ManagerFctPtr t i args _)
  | swap C t o _ hs ht ho ih => cases hs
  | dtor C t _ ht ih =>
    exact tracked_clear ih C C t ht (fun i hi => Function.update_noteq hi _ _)

/-- Without `swap`, once every container is destroyed, every target object that was
constructed in a buffer has been destroyed exactly once. -/
theorem swap_free_exactly_once {Γ : Nat → Option Config} {m : Memory β α ρ ε}
    (h : Reachable false Γ m) (hΓ : ∀ i, Γ i = none) :
    ∀ x ∈ destroy_counts m.trace, x.2 = 1 := by
  obtain ⟨live, hl, hlive⟩ := reachable_tracked h
  refine destroy_counts_of_lifetimes m.trace _ live hl ?_
  intro p
  rw [hlive]
  cases p with
  | tempData => rfl
  | m_Data i => simp [holds_target, hΓ i]

/-! ## Targets make a container Occupied -/

theorem inplace_function.set_copy_isSome (C : Config) (t : Nat) (F : FunctorT β α ρ ε) (v : β)
    (m : Memory β α ρ ε) (hsize : F.sizeof ≤ C.Capacity)
    (halign : C.Alignment % F.alignof = 0) (hcc : F.is_copy_constructible = true) :
    set_copy C t F v m = some (set_body C t F v m) := by
  rw [set_copy, if_pos ⟨hsize, halign, hcc⟩]

theorem inplace_function.set_move_isSome (C : Config) (t : Nat) (F : FunctorT β α ρ ε) (v : β)
    (m : Memory β α ρ ε) (hsize : F.sizeof ≤ C.Capacity)
    (halign : C.Alignment % F.alignof = 0)
    (hctor : C.Copyable = true → F.is_copy_constructible = true) :
    set_move C t F v m = some (set_body C t F v m) := by
  rw [set_move, if_pos ⟨hsize, halign, hctor⟩]

theorem inplace_function.ctor_functor_copy_eq (C : Config) (t : Nat) (F : FunctorT β α ρ ε)
    (v : β) (m m1 : Memory β α ρ ε) (h : ctor_functor_copy C t F v m = some m1) :
    m1 = set_body C t F v m := by
  unfold ctor_functor_copy at h
  by_cases hc : C.Copyable = false ∨ F.is_copy_constructible = true
  · rw [if_pos hc] at h
    exact set_copy_eq C t F v m m1 h
  · rw [if_neg hc] at h
    cases h

theorem inplace_function.ctor_functor_move_eq (C : Config) (t : Nat) (F : FunctorT β α ρ ε)
    (v : β) (m m1 : Memory β α ρ ε) (h : ctor_functor_move C t F v m = some m1) :
    m1 = set_body C t F v m := by
  unfold ctor_functor_move at h
  by_cases hc : C.Copyable = false ∨ F.is_copy_constructible = true
  · rw [if_pos hc] at h
    exact set_move_eq C t F v m m1 h
  · rw [if_neg hc] at h
    cases h

/-- C11: let a functor target pass the checks of `set` and of the constructors. Then the
constructors and the assignments from it are accepted (those from a const reference when
the target has a copy constructor), and after any of them, as after construction from or
assignment of a plain function pointer, whatever the container held before, the container
converts to `true`, `operator==(nullptr)` is `false` and `operator!=(nullptr)` is `true`. -/
theorem target_makes_occupied (C : Config) (this : Nat) (F : FunctorT β α ρ ε) (t : β)
    (ptr : α → Except ε ρ) (m : Memory β α ρ ε)
    (hsize : F.sizeof ≤ C.Capacity) (halign : C.Alignment % F.alignof = 0)
    (hctor : C.Copyable = true → F.is_copy_constructible = true) :
    (ctor_functor_move C this F t m).isSome = true ∧
    (assign_functor_move C this F t m).isSome = true ∧
    (F.is_copy_constructible = true →
      (ctor_functor_copy C this F t m).isSome = true ∧
        (assign_functor_copy C this F t m).isSome = true) ∧
    ∀ m1, (ctor_functor_copy C this F t m = some m1 ∨
        ctor_functor_move C this F t m = some m1 ∨
        assign_functor_copy C this F t m = some m1 ∨
        assign_functor_move C this F t m = some m1 ∨
        ctor_ptr this ptr m = m1 ∨ assign_ptr C this ptr m = m1) →
      operator_bool C this m1 = true ∧ operator_eq_nullptr C this m1 = false ∧
        operator_ne_nullptr C this m1 = true := by
  have hc : C.Copyable = false ∨ F.is_copy_constructible = true := by
    cases h : C.Copyable
    · exact Or.inl rfl
    · exact Or.inr (hctor h)
  refine ⟨?_, ?_, ?_, ?_⟩
  · rw [ctor_functor_move, if_pos hc, set_move_isSome C this F t m hsize halign hctor]
    rfl
  · rw [assign_functor_move, set_move_isSome C this F t _ hsize halign hctor]
    rfl
  · intro hcc
    constructor
    · rw [ctor_functor_copy, if_pos hc, set_copy_isSome C this F t m hsize halign hcc]
      rfl
    · rw [assign_functor_copy, set_copy_isSome C this F t _ hsize halign hcc]
      rfl
  · intro m1 hm
    have key : operator_bool C this m1 = true := by
      rcases hm with hm | hm | hm | hm | hm | hm
      · rw [ctor_functor_copy_eq C this F t m m1 hm]
        simp [operator_bool, set_body_m_InvokeFctPtr, InvokeFctPtrType.ne_DefaultFunction]
      · rw [ctor_functor_move_eq C this F t m m1 hm]
        simp [operator_bool, set_body_m_InvokeFctPtr, InvokeFctPtrType.ne_DefaultFunction]
      · rw [set_copy_eq C this F t _ m1 hm]
        simp [operator_bool, set_body_m_InvokeFctPtr, InvokeFctPtrType.ne_DefaultFunction]
      · rw [set_move_eq C this F t _ m1 hm]
        simp [operator_bool, set_body_m_InvokeFctPtr, InvokeFctPtrType.ne_DefaultFunction]
      · rw [← hm]
        simp [operator_bool, ctor_ptr, set_ptr_m_InvokeFctPtr,
          InvokeFctPtrType.ne_DefaultFunction]
      · rw [← hm]
        simp [operator_bool, assign_ptr, set_ptr_m_InvokeFctPtr,
          InvokeFctPtrType.ne_DefaultFunction]
    simp [operator_eq_nullptr, operator_ne_nullptr, key]

/-- A container of class `C32` that holds the closure adding 5 is assigned the closure
adding 10, and a default constructed one is assigned a function pointer: both convert to
`true` afterwards. -/
theorem target_makes_occupied_witness :
    (assign_functor_move C32 0 adder 10 (set_body C32 0 adder 5 (raw 0))).isSome = true ∧
    operator_bool C32 0 (assign_ptr C32 0 (fun x => .ok x) (ctor_default C32 0 (raw 0))) =
      true :=
  have h := target_makes_occupied C32 0 adder 10 (fun x => .ok x)
    (set_body C32 0 adder 5 (raw 0)) (by decide) (by decide) (fun _ => rfl)
  have h2 := target_makes_occupied C32 0 adder 10 (fun x => .ok x)
    (ctor_default C32 0 (raw 0)) (by decide) (by decide) (fun _ => rfl)
  ⟨h.2.1, (h2.2.2.2 _ (Or.inr (Or.inr (Or.inr (Or.inr (Or.inr rfl)))))).1⟩

/-! ## Assignment destroys the previous target first -/

theorem manage_function.call_trace_no_destroy (g : manage_function β α ρ ε) (p q : Loc)
    (op : operations_enum) (hop : op ≠ .Destroy) (m : Memory β α ρ ε) :
    ∃ rest, (g.call p (some q) op m).trace = m.trace ++ rest ∧
      ∀ r, Event.destroy r ∉ rest := by
  cases op with
  | Destroy => exact absurd rfl hop
  | Move => exact ⟨[.construct p], manage_function.call_Move_trace g p q m, by simp⟩
  | Copy =>
    cases hs : g.SupportsCopying
    · exact ⟨[.unexpected_operation], by
        simp [manage_function.call, manage_function.call_primary, hs, Memory.emit], by simp⟩
    · exact ⟨[.construct p], manage_function.call_Copy_trace g p q m hs, by simp⟩

namespace inplace_function

theorem copy_trace_no_destroy (C O : Config) (t o : Nat) (m m1 : Memory β α ρ ε)
    (h : copy C O t o m = some m1) :
    ∃ rest, m1.trace = m.trace ++ rest ∧ ∀ r, Event.destroy r ∉ rest := by
  simp only [copy] at h
  split at h
  · cases h
    cases hg : (m.obj o).m_ManagerFctPtr with
    | none => exact ⟨[], by simp [Memory.set_ManagerFctPtr, Memory.set_InvokeFctPtr], by simp⟩
    | some g =>
      obtain ⟨rest, h1, h2⟩ :=
        manage_function.call_trace_no_destroy g (data t) (data o) .Copy (by decide) m
      exact ⟨rest, by simpa [Memory.set_ManagerFctPtr, Memory.set_InvokeFctPtr] using h1, h2⟩
  · cases h

theorem move_trace_no_destroy (C O : Config) (t o : Nat) (m m1 : Memory β α ρ ε)
    (h : move C O t o m = some m1) :
    ∃ rest, m1.trace = m.trace ++ rest ∧ ∀ r, Event.destroy r ∉ rest := by
  refine ⟨_, move_trace C O t o m m1 h, ?_⟩
  intro r
  cases (m.obj o).m_ManagerFctPtr.isSome <;> simp

theorem set_nullptr_trace (C : Config) (t : Nat) (m : Memory β α ρ ε) :
    (set_nullptr C t m).trace = m.trace := rfl

theorem set_ptr_trace (t : Nat) (ptr : α → Except ε ρ) (m : Memory β α ρ ε) :
    (set_ptr t ptr m).trace = m.trace := rfl

theorem clear_m_Data_self (C : Config) (t : Nat) (m : Memory β α ρ ε)
    (g : manage_function β α ρ ε) (hg : (m.obj t).m_ManagerFctPtr = some g) :
    ((clear C t m).obj t).m_Data = g.F.destroyed (m.obj t).m_Data := by
  have hg1 : ((m.set_InvokeFctPtr t (.DefaultFunction C)).obj t).m_ManagerFctPtr = some g := by
    rw [Memory.set_InvokeFctPtr_m_ManagerFctPtr, hg]
  simp only [clear, hg1]
  simp [Memory.set_ManagerFctPtr_m_Data, manage_function.call_Destroy, Memory.emit_obj,
    Memory.store_m_Data, data, Memory.load_m_Data, Memory.set_InvokeFctPtr_m_Data]

end inplace_function

/-- C12: every assignment (copy, move, also from a class with a smaller buffer; from a
functor by const reference or rvalue; from the null marker; from a function pointer) first
runs `clear`. With a manager in the destination, `clear` runs that manager's `Destroy` on
the destination buffer once, without a manager it runs none; right after it the invoker
is `DefaultFunction` and the manager null, so nothing new is installed yet. All the events
that the assignment adds after that are no destructions: the new target is constructed
after the old one was destroyed, and the old one is destroyed once. -/
theorem assignment_destroys_previous_target_first (C O : Config) (this other : Nat)
    (F : FunctorT β α ρ ε) (v : β) (ptr : α → Except ε ρ) (m m1 : Memory β α ρ ε)
    (h : assign_copy C O this other m = some m1 ∨ assign_move C O this other m = some m1 ∨
      assign_functor_copy C this F v m = some m1 ∨
      assign_functor_move C this F v m = some m1 ∨
      assign_nullptr C this m = m1 ∨ assign_ptr C this ptr m = m1) :
    (clear C this m).trace =
      m.trace ++ (if (m.obj this).m_ManagerFctPtr.isSome then [.destroy (data this)]
        else []) ∧
    (∀ g, (m.obj this).m_ManagerFctPtr = some g →
      ((clear C this m).obj this).m_Data = g.F.destroyed (m.obj this).m_Data) ∧
    ((clear C this m).obj this).m_InvokeFctPtr = .DefaultFunction C ∧
    ((clear C this m).obj this).m_ManagerFctPtr = none ∧
    ∃ rest, m1.trace = (clear C this m).trace ++ rest ∧ ∀ p, Event.destroy p ∉ rest := by
  refine ⟨clear_trace C this m, fun g hg => clear_m_Data_self C this m g hg,
    by simp [clear_m_InvokeFctPtr], by simp [clear_m_ManagerFctPtr], ?_⟩
  rcases h with h | h | h | h | h | h
  · exact copy_trace_no_destroy C O this other _ m1 h
  · unfold assign_move at h
    by_cases hc : O = C ∨ O.Copyable = true
    · rw [if_pos hc] at h
      exact move_trace_no_destroy C O this other _ m1 h
    · rw [if_neg hc] at h
      cases h
  · rw [set_copy_eq C this F v _ m1 h]
    exact ⟨_, set_body_trace C this F v _, by simp⟩
  · rw [set_move_eq C this F v _ m1 h]
    exact ⟨_, set_body_trace C this F v _, by simp⟩
  · exact ⟨[], by rw [← h]; simp [assign_nullptr, set_nullptr_trace], by simp⟩
  · exact ⟨[], by rw [← h]; simp [assign_ptr, set_ptr_trace], by simp⟩

/-- A container holding the closure adding 5 is assigned the closure adding 10: the events
are the construction of the first target, its destruction, and the construction of the
second. -/
theorem assignment_destroys_previous_target_first_witness :
    ∃ m1, assign_functor_move C32 0 adder 10 (set_body C32 0 adder 5 (raw 0)) = some m1 ∧
      m1.trace = [.construct (.m_Data 0), .destroy (.m_Data 0), .construct (.m_Data 0)] ∧
      ∃ rest, m1.trace = (clear C32 0 (set_body C32 0 adder 5 (raw 0))).trace ++ rest ∧
        ∀ p, Event.destroy p ∉ rest :=
  ⟨_, rfl, rfl,
    (assignment_destroys_previous_target_first C32 C32 0 0 adder 10 (fun x => .ok x)
      (set_body C32 0 adder 5 (raw 0)) _ (Or.inr (Or.inr (Or.inr (Or.inl rfl))))).2.2.2.2⟩

/-! ## Widening -/

/-- A copy into a wider class is the copy into the source's own class. -/
theorem inplace_function.copy_widening (C O : Config) (d s : Nat) (m : Memory β α ρ ε)
    (hcap : O.Capacity ≤ C.Capacity) (halign : C.Alignment % O.Alignment = 0)
    (hC : C.Copyable = true) (hO : O.Copyable = true) :
    copy C O d s m = copy O O d s m ∧ (copy C O d s m).isSome = true := by
  have h1 : O.Capacity ≤ C.Capacity ∧ C.Alignment % O.Alignment = 0 ∧
      C.Copyable = true ∧ O.Copyable = true := ⟨hcap, halign, hC, hO⟩
  have h2 : O.Capacity ≤ O.Capacity ∧ O.Alignment % O.Alignment = 0 ∧
      O.Copyable = true ∧ O.Copyable = true := ⟨le_refl _, Nat.mod_self _, hO, hO⟩
  rw [copy, copy, if_pos h1, if_pos h2]
  exact ⟨rfl, rfl⟩

/-- A move into a wider class gives the destination the pointers and the target that the
move into the source's own class gives it; the source gets the `DefaultFunction` of the
destination class in the one and of its own class in the other. -/
theorem inplace_function.move_widening (C O : Config) (d s : Nat) (m mw mn : Memory β α ρ ε)
    (hne : d ≠ s) (hw : move C O d s m = some mw) (hn : move O O d s m = some mn) :
    (mw.obj d).m_InvokeFctPtr = (mn.obj d).m_InvokeFctPtr ∧
    (mw.obj d).m_ManagerFctPtr = (mn.obj d).m_ManagerFctPtr ∧
    (mw.obj d).m_Data = (mn.obj d).m_Data ∧
    (mw.obj s).m_ManagerFctPtr = (mn.obj s).m_ManagerFctPtr ∧
    (mw.obj s).m_Data = (mn.obj s).m_Data ∧
    (mw.obj s).m_InvokeFctPtr = .DefaultFunction C ∧
    (mn.obj s).m_InvokeFctPtr = .DefaultFunction O := by
  simp only [move] at hw hn
  split at hw
  · split at hn
    · cases hw
      cases hn
      refine ⟨?_, ?_, ?_, ?_, ?_, ?_, ?_⟩ <;>
        simp [Memory.set_InvokeFctPtr_m_InvokeFctPtr, Memory.set_InvokeFctPtr_m_ManagerFctPtr,
          Memory.set_InvokeFctPtr_m_Data, Memory.set_ManagerFctPtr_m_InvokeFctPtr,
          Memory.set_ManagerFctPtr_m_ManagerFctPtr, Memory.set_ManagerFctPtr_m_Data, hne]
    · cases hn
  · cases hw

/-- C13: the closure adding 5 in a container of capacity 32 is moved into a container of
capacity 64, and into one of capacity 32. Both destinations get the same invoker, manager
and target and return the same results, and the source keeps the same manager and buffer.
But the source's invoker is reset to the `DefaultFunction` of the destination class: after
the move into the wider container the source converts to `true`, after the move into its
own class to `false`. Likewise the copy of an empty container converts to `true` in the
wider class and to `false` in its own. -/
theorem widening_resets_source_differently :
    ∃ mw mn, ctor_move C64 C32 1 0 (set_body C32 0 adder 5 (raw 0)) = some mw ∧
      ctor_move C32 C32 1 0 (set_body C32 0 adder 5 (raw 0)) = some mn ∧
      (mw.obj 1).m_InvokeFctPtr = (mn.obj 1).m_InvokeFctPtr ∧
      (mw.obj 1).m_ManagerFctPtr = (mn.obj 1).m_ManagerFctPtr ∧
      (mw.obj 1).m_Data = (mn.obj 1).m_Data ∧
      (∀ args, (operator_call 1 args mw).1 = (operator_call 1 args mn).1) ∧
      (mw.obj 0).m_InvokeFctPtr = .DefaultFunction C64 ∧
      (mn.obj 0).m_InvokeFctPtr = .DefaultFunction C32 ∧
      operator_bool C32 0 mw = true ∧ operator_bool C32 0 mn = false ∧
      ∃ cw cn, ctor_copy C64 C32 1 0 (ctor_default C32 0 (raw 0)) = some cw ∧
        ctor_copy C32 C32 1 0 (ctor_default C32 0 (raw 0)) = some cn ∧
        (cw.obj 1).m_InvokeFctPtr = (cn.obj 1).m_InvokeFctPtr ∧
        operator_bool C64 1 cw = true ∧ operator_bool C32 1 cn = false :=
  ⟨_, _, rfl, rfl, rfl, rfl, rfl, fun _ => rfl, rfl, rfl, rfl, rfl,
    _, _, rfl, rfl, rfl, rfl, rfl⟩

/-! ## The fit invariant -/

namespace inplace_function

theorem fits_none (C : Config) (x : inplace_function β α ρ ε)
    (h : x.m_ManagerFctPtr = none) : fits C x := by
  intro g hg
  rw [h] at hg
  cases hg

theorem fits_widen (C D : Config) (x y : inplace_function β α ρ ε)
    (hg : y.m_ManagerFctPtr = x.m_ManagerFctPtr) (hcap : C.Capacity ≤ D.Capacity)
    (halign : D.Alignment % C.Alignment = 0) (h : fits C x) : fits D y := by
  intro g hy
  rw [hg] at hy
  obtain ⟨h1, h2⟩ := h g hy
  refine ⟨le_trans h1 hcap, ?_⟩
  exact Nat.mod_eq_zero_of_dvd
    (dvd_trans (Nat.dvd_of_mod_eq_zero h2) (Nat.dvd_of_mod_eq_zero halign))

theorem fits_congr (C : Config) (x y : inplace_function β α ρ ε)
    (hg : y.m_ManagerFctPtr = x.m_ManagerFctPtr) (h : fits C x) : fits C y :=
  fits_widen C C x y hg (le_refl _) (Nat.mod_self _) h

theorem fits_functor (C : Config) (x : inplace_function β α ρ ε) (F : FunctorT β α ρ ε)
    (b : Bool) (hg : x.m_ManagerFctPtr = some ⟨F, b⟩) (hsize : F.sizeof ≤ C.Capacity)
    (halign : C.Alignment % F.alignof = 0) : fits C x := by
  intro g hx
  rw [hg] at hx
  cases hx
  exact ⟨hsize, halign⟩

theorem set_copy_checked (C : Config) (t : Nat) (F : FunctorT β α ρ ε) (v : β)
    (m m1 : Memory β α ρ ε) (h : set_copy C t F v m = some m1) :
    F.sizeof ≤ C.Capacity ∧ C.Alignment % F.alignof = 0 := by
  unfold set_copy at h
  split at h
  · rename_i hc; exact ⟨hc.1, hc.2.1⟩
  · cases h

theorem set_move_checked (C : Config) (t : Nat) (F : FunctorT β α ρ ε) (v : β)
    (m m1 : Memory β α ρ ε) (h : set_move C t F v m = some m1) :
    F.sizeof ≤ C.Capacity ∧ C.Alignment % F.alignof = 0 := by
  unfold set_move at h
  split at h
  · rename_i hc; exact ⟨hc.1, hc.2.1⟩
  · cases h

theorem copy_checked (C O : Config) (t o : Nat) (m m1 : Memory β α ρ ε)
    (h : copy C O t o m = some m1) :
    O.Capacity ≤ C.Capacity ∧ C.Alignment % O.Alignment = 0 := by
  simp only [copy] at h
  split at h
  · rename_i hc; exact ⟨hc.1, hc.2.1⟩
  · cases h

theorem move_checked (C O : Config) (t o : Nat) (m m1 : Memory β α ρ ε)
    (h : move C O t o m = some m1) :
    O.Capacity ≤ C.Capacity ∧ C.Alignment % O.Alignment = 0 := by
  simp only [move] at h
  split at h
  · rename_i hc; exact ⟨hc.1, hc.2.1⟩
  · cases h

theorem ctor_move_eq (C O : Config) (t o : Nat) (m m1 : Memory β α ρ ε)
    (h : ctor_move C O t o m = some m1) : move C O t o m = some m1 := by
  unfold ctor_move at h
  by_cases hc : O = C ∨ O.Copyable = true
  · rw [if_pos hc] at h; exact h
  · rw [if_neg hc] at h; cases h

theorem assign_move_eq (C O : Config) (t o : Nat) (m m1 : Memory β α ρ ε)
    (h : assign_move C O t o m = some m1) : move C O t o (clear C t m) = some m1 := by
  unfold assign_move at h
  by_cases hc : O = C ∨ O.Copyable = true
  · rw [if_pos hc] at h; exact h
  · rw [if_neg hc] at h; cases h

end inplace_function

/-- In every reachable state the type that a constructed container manages fits the
buffer of the container's class. -/
theorem reachable_fits {swaps : Bool} {Γ : Nat → Option Config} {m : Memory β α ρ ε}
    (h : Reachable swaps Γ m) : ∀ i C, Γ i = some C → fits C (m.obj i) := by
  induction h with
  | start m _ => intro i C hi; cases hi
  | ctor_default C t _ _ ih =>
    intro i D hi
    by_cases e : i = t
    · subst e
      exact fits_none D _ (by simp [ctor_default_m_ManagerFctPtr])
    · rw [Function.update_noteq e] at hi
      exact fits_congr D _ _ (by simp [ctor_default_m_ManagerFctPtr, e]) (ih i D hi)
  | ctor_nullptr C t _ _ ih =>
    intro i D hi
    by_cases e : i = t
    · subst e
      exact fits_none D _ (by simp [ctor_nullptr, set_nullptr_m_ManagerFctPtr])
    · rw [Function.update_noteq e] at hi
      exact fits_congr D _ _ (by simp [ctor_nullptr, set_nullptr_m_ManagerFctPtr, e])
        (ih i D hi)
  | ctor_ptr C t ptr _ _ ih =>
    intro i D hi
    by_cases e : i = t
    · subst e
      exact fits_none D _ (by simp [ctor_ptr, set_ptr_m_ManagerFctPtr])
    · rw [Function.update_noteq e] at hi
      exact fits_congr D _ _ (by simp [ctor_ptr, set_ptr_m_ManagerFctPtr, e]) (ih i D hi)
  | ctor_functor_copy C t F c m1 _ _ hm ih =>
    intro i D hi
    unfold ctor_functor_copy at hm
    by_cases hc : C.Copyable = false ∨ F.is_copy_constructible = true
    · rw [if_pos hc] at hm
      have hk := set_copy_checked C t F c _ m1 hm
      have hm1 := set_copy_eq C t F c _ m1 hm
      subst hm1
      by_cases e : i = t
      · subst e
        simp only [Function.update_same, Option.some.injEq] at hi
        subst hi
        exact fits_functor C _ F C.Copyable (by simp [set_body_m_ManagerFctPtr]) hk.1 hk.2
      · rw [Function.update_noteq e] at hi
        exact fits_congr D _ _ (by simp [set_body_m_ManagerFctPtr, e]) (ih i D hi)
    · rw [if_neg hc] at hm; cases hm
  | ctor_functor_move C t F c m1 _ _ hm ih =>
    intro i D hi
    unfold ctor_functor_move at hm
    by_cases hc : C.Copyable = false ∨ F.is_copy_constructible = true
    · rw [if_pos hc] at hm
      have hk := set_move_checked C t F c _ m1 hm
      have hm1 := set_move_eq C t F c _ m1 hm
      subst hm1
      by_cases e : i = t
      · subst e
        simp only [Function.update_same, Option.some.injEq] at hi
        subst hi
        exact fits_functor C _ F C.Copyable (by simp [set_body_m_ManagerFctPtr]) hk.1 hk.2
      · rw [Function.update_noteq e] at hi
        exact fits_congr D _ _ (by simp [set_body_m_ManagerFctPtr, e]) (ih i D hi)
    · rw [if_neg hc] at hm; cases hm
  | ctor_copy C O t o m1 _ ht ho hm ih =>
    intro i D hi
    simp only [ctor_copy] at hm
    have hk := copy_checked C O t o _ m1 hm
    by_cases e : i = t
    · subst e
      simp only [Function.update_same, Option.some.injEq] at hi
      subst hi
      exact fits_widen O C _ _ (by simp [copy_m_ManagerFctPtr C O i o i _ m1 hm]) hk.1 hk.2
        (ih o O ho)
    · rw [Function.update_noteq e] at hi
      exact fits_congr D _ _ (by simp [copy_m_ManagerFctPtr C O t o i _ m1 hm, e]) (ih i D hi)
  | ctor_move C O t o m1 _ ht ho hm ih =>
    intro i D hi
    have hm := ctor_move_eq C O t o _ m1 hm
    have hk := move_checked C O t o _ m1 hm
    by_cases e : i = t
    · subst e
      simp only [Function.update_same, Option.some.injEq] at hi
      subst hi
      exact fits_widen O C _ _ (by simp [move_m_ManagerFctPtr C O i o i _ m1 hm]) hk.1 hk.2
        (ih o O ho)
    · rw [Function.update_noteq e] at hi
      exact fits_congr D _ _ (by simp [move_m_ManagerFctPtr C O t o i _ m1 hm, e]) (ih i D hi)
  | assign_copy C O t o m1 _ ht ho hm ih =>
    intro i D hi
    simp only [assign_copy] at hm
    have hk := copy_checked C O t o _ m1 hm
    have hg := copy_m_ManagerFctPtr C O t o i _ m1 hm
    simp only [clear_m_ManagerFctPtr] at hg
    by_cases e : i = t
    · subst e
      rw [ht] at hi; cases hi
      by_cases e2 : o = i
      · exact fits_none _ _ (by simp [hg, e2])
      · exact fits_widen O _ _ _ (by simp [hg, e2]) hk.1 hk.2 (ih o O ho)
    · exact fits_congr D _ _ (by simp [hg, e]) (ih i D hi)
  | assign_move C O t o m1 _ ht ho hm ih =>
    intro i D hi
    have hm := assign_move_eq C O t o _ m1 hm
    have hk := move_checked C O t o _ m1 hm
    have hg := move_m_ManagerFctPtr C O t o i _ m1 hm
    simp only [clear_m_ManagerFctPtr] at hg
    by_cases e : i = t
    · subst e
      rw [ht] at hi; cases hi
      by_cases e2 : o = i
      · exact fits_none _ _ (by simp [hg, e2])
      · exact fits_widen O _ _ _ (by simp [hg, e2]) hk.1 hk.2 (ih o O ho)
    · exact fits_congr D _ _ (by simp [hg, e]) (ih i D hi)
  | assign_functor_copy C t F c m1 _ ht hm ih =>
    intro i D hi
    simp only [assign_functor_copy] at hm
    have hk := set_copy_checked C t F c _ m1 hm
    have hm1 := set_copy_eq C t F c _ m1 hm
    subst hm1
    by_cases e : i = t
    · subst e
      rw [ht] at hi; cases hi
      exact fits_functor _ _ F C.Copyable (by simp [set_body_m_ManagerFctPtr]) hk.1 hk.2
    · exact fits_congr D _ _ (by simp [set_body_m_ManagerFctPtr, clear_m_ManagerFctPtr, e])
        (ih i D hi)
  | assign_functor_move C t F c m1 _ ht hm ih =>
    intro i D hi
    simp only [assign_functor_move] at hm
    have hk := set_move_checked C t F c _ m1 hm
    have hm1 := set_move_eq C t F c _ m1 hm
    subst hm1
    by_cases e : i = t
    · subst e
      rw [ht] at hi; cases hi
      exact fits_functor _ _ F C.Copyable (by simp [set_body_m_ManagerFctPtr]) hk.1 hk.2
    · exact fits_congr D _ _ (by simp [set_body_m_ManagerFctPtr, clear_m_ManagerFctPtr, e])
        (ih i D hi)
  | assign_nullptr C t _ ht ih =>
    intro i D hi
    by_cases e : i = t
    · subst e
      exact fits_none D _ (by simp [assign_nullptr, set_nullptr_m_ManagerFctPtr])
    · exact fits_congr D _ _
        (by simp [assign_nullptr, set_nullptr_m_ManagerFctPtr, clear_m_ManagerFctPtr, e])
        (ih i D hi)
  | assign_ptr C t ptr _ ht ih =>
    intro i D hi
    by_cases e : i = t
    · subst e
      exact fits_none D _ (by simp [assign_ptr, set_ptr_m_ManagerFctPtr])
    · exact fits_congr D _ _
        (by simp [assign_ptr, set_ptr_m_ManagerFctPtr, clear_m_ManagerFctPtr, e])
        (ih i D hi)
  | operator_call C t args _ ht ih =>
    intro i D hi
    exact fits_congr D _ _ (operator_call_m_ManagerFctPtr t i args _) (ih i D hi)
  | swap C t o _ _ ht ho ih =>
    intro i D hi
    by_cases e : i = t
    · subst e
      rw [ht] at hi; cases hi
      exact fits_congr _ _ _ (by simp [swap_m_ManagerFctPtr]) (ih o _ ho)
    · by_cases e2 : i = o
      · subst e2
        rw [ho] at hi; cases hi
        exact fits_congr _ _ _ (by simp [swap_m_ManagerFctPtr, e]) (ih t _ ht)
      · exact fits_congr D _ _ (by simp [swap_m_ManagerFctPtr, e, e2]) (ih i D hi)
  | dtor C t _ ht ih =>
    intro i D hi
    by_cases e : i = t
    · subst e
      simp at hi
    · rw [Function.update_noteq e] at hi
      exact fits_congr D _ _ (by simp [dtor, clear_m_ManagerFctPtr, e]) (ih i D hi)

/-- C14: `set` accepts a functor only of a type whose size is at most `Capacity` and whose
alignment divides `Alignment`; `copy` and `move` accept another container only of a class
whose capacity is at most `Capacity` and whose alignment divides `Alignment`. Hence in
every reachable state, swaps and copies or moves from narrower classes included, the type
of the target that a constructed container manages or invokes has a size of at most the
container's `Capacity` and an alignment dividing the container's `Alignment`. -/
theorem fit_invariant :
    (∀ (C : Config) (t : Nat) (F : FunctorT β α ρ ε) (v : β) (m m1 : Memory β α ρ ε),
      (set_copy C t F v m = some m1 ∨ set_move C t F v m = some m1) →
        F.sizeof ≤ C.Capacity ∧ C.Alignment % F.alignof = 0) ∧
    (∀ (C O : Config) (t o : Nat) (m m1 : Memory β α ρ ε),
      (copy C O t o m = some m1 ∨ move C O t o m = some m1) →
        O.Capacity ≤ C.Capacity ∧ C.Alignment % O.Alignment = 0) ∧
    (∀ (swaps : Bool) (Γ : Nat → Option Config) (m : Memory β α ρ ε) (i : Nat) (C : Config),
      Reachable swaps Γ m → Γ i = some C →
        (∀ g, (m.obj i).m_ManagerFctPtr = some g →
          g.F.sizeof ≤ C.Capacity ∧ C.Alignment % g.F.alignof = 0) ∧
        (∀ F, (m.obj i).m_InvokeFctPtr = .invoke F →
          F.sizeof ≤ C.Capacity ∧ C.Alignment % F.alignof = 0)) := by
  refine ⟨?_, ?_, ?_⟩
  · intro C t F v m m1 h
    rcases h with h | h
    · exact set_copy_checked C t F v m m1 h
    · exact set_move_checked C t F v m m1 h
  · intro C O t o m m1 h
    rcases h with h | h
    · exact copy_checked C O t o m m1 h
    · exact move_checked C O t o m m1 h
  · intro swaps Γ m i C h hi
    have hf := reachable_fits h i C hi
    refine ⟨hf, ?_⟩
    intro F hF
    have hp := coherent_paired C _ (reachable_coherent h i C hi) F hF
    exact hf _ hp

/-- The closure adding 5 (size 4, alignment 4) is constructed in a container of capacity
32 and moved into a container of capacity 64 and alignment 16: the type managed there
fits. -/
theorem fit_invariant_witness :
    ∃ m1 : Memory Int Int Int Unit,
      ctor_move C64 C32 1 0 (set_body C32 0 adder 5 (raw 0)) = some m1 ∧
      ∀ g, (m1.obj 1).m_ManagerFctPtr = some g →
        g.F.sizeof ≤ 64 ∧ 16 % g.F.alignof = 0 := by
  have r0 : Reachable true (fun _ => none) (raw 0) := Reachable.start _ rfl
  have r1 := Reachable.ctor_functor_copy C32 0 adder 5 (set_body C32 0 adder 5 (raw 0))
    r0 rfl rfl
  obtain ⟨m2, h2⟩ : ∃ m2, ctor_move C64 C32 1 0 (set_body C32 0 adder 5 (raw 0)) = some m2 :=
    ⟨_, rfl⟩
  have r2 := Reachable.ctor_move C64 C32 1 0 m2 r1 rfl rfl h2
  exact ⟨m2, h2, (fit_invariant.2.2 true _ m2 1 C64 r2 rfl).1⟩

/-! ## Function pointers and the null marker -/

/-- C15: after construction from, or assignment of, a plain function pointer the manager
is null, the container converts to `true`, and invoking it with any arguments returns what
the function returns and changes nothing. -/
theorem function_pointer_target (C : Config) (this : Nat) (ptr : α → Except ε ρ)
    (m m1 : Memory β α ρ ε) (h : ctor_ptr this ptr m = m1 ∨ assign_ptr C this ptr m = m1) :
    (m1.obj this).m_ManagerFctPtr = none ∧
    (m1.obj this).m_InvokeFctPtr = .reinterpret_cast ptr ∧
    operator_bool C this m1 = true ∧
    ∀ args, operator_call this args m1 = (Thrown.of_target (ptr args), m1) := by
  have hg : (m1.obj this).m_ManagerFctPtr = none := by
    rcases h with h | h <;> rw [← h] <;>
      simp [ctor_ptr, assign_ptr, set_ptr_m_ManagerFctPtr]
  have hf : (m1.obj this).m_InvokeFctPtr = .reinterpret_cast ptr := by
    rcases h with h | h <;> rw [← h] <;>
      simp [ctor_ptr, assign_ptr, set_ptr_m_InvokeFctPtr]
  refine ⟨hg, hf, ?_, ?_⟩
  · simp [operator_bool, hf, InvokeFctPtrType.ne_DefaultFunction]
  · intro args
    simp [operator_call, hf, InvokeFctPtrType.apply]

/-- A container holding the closure adding 5 is assigned the function doubling its
argument: invoked with 3 it returns 6. -/
theorem function_pointer_target_witness :
    (operator_call 0 3
      (assign_ptr C32 0 (fun x => .ok (2 * x)) (set_body C32 0 adder 5 (raw 0)))).1 =
        .ok 6 :=
  congrArg Prod.fst
    ((function_pointer_target C32 0 (fun x => .ok (2 * x)) (set_body C32 0 adder 5 (raw 0))
      _ (Or.inr rfl)).2.2.2 3)

/-- C16: after construction from, or assignment of, the null marker, whatever the
container held before, the manager is null and the invoker is the `DefaultFunction` of
the container's class: the container converts to `false`, compares equal to `nullptr`,
and invoking it throws `std::bad_function_call` and changes nothing. -/
theorem null_marker_makes_empty (C : Config) (this : Nat) (m m1 : Memory β α ρ ε)
    (h : ctor_nullptr C this m = m1 ∨ assign_nullptr C this m = m1) :
    (m1.obj this).m_ManagerFctPtr = none ∧
    (m1.obj this).m_InvokeFctPtr = .DefaultFunction C ∧
    operator_bool C this m1 = false ∧
    operator_eq_nullptr C this m1 = true ∧
    operator_ne_nullptr C this m1 = false ∧
    ∀ args, operator_call this args m1 = (.error .bad_function_call, m1) := by
  have hg : (m1.obj this).m_ManagerFctPtr = none := by
    rcases h with h | h <;> rw [← h] <;>
      simp [ctor_nullptr, assign_nullptr, set_nullptr_m_ManagerFctPtr]
  have hf : (m1.obj this).m_InvokeFctPtr = .DefaultFunction C := by
    rcases h with h | h <;> rw [← h] <;>
      simp [ctor_nullptr, assign_nullptr, set_nullptr_m_InvokeFctPtr]
  have hb : operator_bool C this m1 = false := by
    simp [operator_bool, hf, InvokeFctPtrType.ne_DefaultFunction]
  refine ⟨hg, hf, hb, ?_, ?_, ?_⟩
  · simp [operator_eq_nullptr, hb]
  · simp [operator_ne_nullptr, hb]
  · intro args
    simp [operator_call, hf, InvokeFctPtrType.apply]

/-- A container holding the closure adding 5 is assigned the null marker: it converts to
`false` and throws when invoked with 3. -/
theorem null_marker_makes_empty_witness :
    operator_bool C32 0 (assign_nullptr C32 0 (set_body C32 0 adder 5 (raw 0))) = false ∧
    (operator_call 0 3 (assign_nullptr C32 0 (set_body C32 0 adder 5 (raw 0)))).1 =
      .error .bad_function_call :=
  have h := null_marker_makes_empty C32 0 (set_body C32 0 adder 5 (raw 0)) _ (Or.inr rfl)
  ⟨h.2.2.1, congrArg Prod.fst (h.2.2.2.2.2 3)⟩

/-! ## The manager's default branch -/

/-- A manager called with a tag of its own tag set adds no `Unexpected operation`. -/
theorem manage_function.call_expected (g : manage_function β α ρ ε) (p : Loc)
    (q : Option Loc) (op : operations_enum)
    (hop : inplace_function_operation g.SupportsCopying op = true) (m : Memory β α ρ ε) :
    ∃ rest, (g.call p q op m).trace = m.trace ++ rest ∧
      Event.unexpected_operation ∉ rest := by
  cases op with
  | Destroy => exact ⟨_, manage_function.call_Destroy_trace g p q m, by simp⟩
  | Move =>
    cases q with
    | none =>
      refine ⟨[], ?_, by simp⟩
      cases hs : g.SupportsCopying <;>
        simp [manage_function.call, manage_function.call_true,
          manage_function.call_primary, hs]
    | some q => exact ⟨_, manage_function.call_Move_trace g p q m, by simp⟩
  | Copy =>
    have hs : g.SupportsCopying = true := by simpa [inplace_function_operation] using hop
    cases q with
    | none =>
      refine ⟨[], ?_, by simp⟩
      simp [manage_function.call, manage_function.call_true, hs]
    | some q => exact ⟨_, manage_function.call_Copy_trace g p q m hs, by simp⟩

/-- The move-only manager called with `Copy` does reach its default branch. -/
theorem manage_function.call_unexpected (F : FunctorT β α ρ ε) (p : Loc) (q : Option Loc)
    (m : Memory β α ρ ε) :
    ((⟨F, false⟩ : manage_function β α ρ ε).call p q .Copy m).trace =
      m.trace ++ [.unexpected_operation] := by
  simp [manage_function.call, manage_function.call_primary, Memory.emit]

namespace inplace_function

theorem move_buffer_trace (t : Nat) (p q : Loc) (m : Memory β α ρ ε) :
    (move_buffer t p q m).trace =
      m.trace ++ if (m.obj t).m_ManagerFctPtr.isSome then [.construct p] else [] := by
  simp only [move_buffer]
  cases hg : (m.obj t).m_ManagerFctPtr with
  | none => simp [Memory.store_trace]
  | some g => simp [manage_function.call_Move_trace]

theorem swap_trace (t o : Nat) (m : Memory β α ρ ε) :
    (swap t o m).trace =
      m.trace ++ (if (m.obj t).m_ManagerFctPtr.isSome then [.construct (data t)] else []) ++
        (if (m.obj o).m_ManagerFctPtr.isSome then [.construct (data o)] else []) ++
        (if (m.obj t).m_ManagerFctPtr.isSome then [.construct .tempData] else []) := by
  simp only [swap]
  simp only [Memory.set_ManagerFctPtr, Memory.set_InvokeFctPtr]
  rw [move_buffer_trace, move_buffer_trace, move_buffer_trace]
  simp only [move_buffer_m_ManagerFctPtr]

end inplace_function

theorem mem_append_expected {t rest : List Event}
    (h : Event.unexpected_operation ∉ t) (hr : Event.unexpected_operation ∉ rest) :
    Event.unexpected_operation ∉ t ++ rest := by
  simp [h, hr]

/-- No reachable state has an `Unexpected operation` among its manager events. -/
theorem reachable_expected {swaps : Bool} {Γ : Nat → Option Config} {m : Memory β α ρ ε}
    (h : Reachable swaps Γ m) : Event.unexpected_operation ∉ m.trace := by
  induction h with
  | start m ht => rw [ht]; simp
  | ctor_default C t _ _ ih => exact ih
  | ctor_nullptr C t _ _ ih => exact ih
  | ctor_ptr C t ptr _ _ ih => exact ih
  | ctor_functor_copy C t F c m1 _ _ hm ih =>
    rw [ctor_functor_copy_eq C t F c _ m1 hm, set_body_trace]
    exact mem_append_expected ih (by simp)
  | ctor_functor_move C t F c m1 _ _ hm ih =>
    rw [ctor_functor_move_eq C t F c _ m1 hm, set_body_trace]
    exact mem_append_expected ih (by simp)
  | ctor_copy C O t o m1 hr ht ho hm ih =>
    simp only [ctor_copy] at hm
    rw [copy_trace C O t o _ m1 hm (coherent_SupportsCopying O _ (reachable_coherent hr o O ho)
      (copy_other_Copyable C O t o _ m1 hm))]
    refine mem_append_expected ih ?_
    split <;> simp
  | ctor_move C O t o m1 hr ht ho hm ih =>
    rw [move_trace C O t o _ m1 (ctor_move_eq C O t o _ m1 hm)]
    refine mem_append_expected ih ?_
    split <;> simp
  | @assign_copy Γ0 m0 C O t o m1 hr ht ho hm ih =>
    simp only [assign_copy] at hm
    have hs : ∀ g, ((clear C t m0).obj o).m_ManagerFctPtr = some g →
        g.SupportsCopying = true := by
      intro g hg
      rw [clear_m_ManagerFctPtr] at hg
      by_cases e : o = t
      · simp [e] at hg
      · simp only [e, if_false] at hg
        exact coherent_SupportsCopying O _ (reachable_coherent hr o O ho)
          (copy_other_Copyable C O t o _ m1 hm) g hg
    rw [copy_trace C O t o _ m1 hm hs, clear_trace]
    refine mem_append_expected (mem_append_expected ih ?_) ?_ <;> split <;> simp
  | assign_move C O t o m1 hr ht ho hm ih =>
    rw [move_trace C O t o _ m1 (assign_move_eq C O t o _ m1 hm), clear_trace]
    refine mem_append_expected (mem_append_expected ih ?_) ?_ <;> split <;> simp
  | assign_functor_copy C t F c m1 _ ht hm ih =>
    simp only [assign_functor_copy] at hm
    rw [set_copy_eq C t F c _ m1 hm, set_body_trace, clear_trace]
    refine mem_append_expected (mem_append_expected ih ?_) (by simp)
    split <;> simp
  | assign_functor_move C t F c m1 _ ht hm ih =>
    simp only [assign_functor_move] at hm
    rw [set_move_eq C t F c _ m1 hm, set_body_trace, clear_trace]
    refine mem_append_expected (mem_append_expected ih ?_) (by simp)
    split <;> simp
  | assign_nullptr C t _ ht ih =>
    simp only [assign_nullptr, set_nullptr_trace, clear_trace]
    refine mem_append_expected ih ?_
    split <;> simp
  | assign_ptr C t ptr _ ht ih =>
    simp only [assign_ptr, set_ptr_trace, clear_trace]
    refine mem_append_expected ih ?_
    split <;> simp
  | operator_call C t args _ ht ih =>
    rw [operator_call_trace]
    exact ih
  | swap C t o _ _ ht ho ih =>
    rw [swap_trace]
    refine mem_append_expected (mem_append_expected (mem_append_expected ih ?_) ?_) ?_ <;>
      split <;> simp
  | dtor C t _ ht ih =>
    simp only [dtor, clear_trace]
    refine mem_append_expected ih ?_
    split <;> simp

/-- C17: a manager of either kind, called with a tag of its own tag set (`Destroy`, `Move`,
and `Copy` for the copying kind only), takes the `Destroy`, `Move` or `Copy` branch and
adds no `Unexpected operation`. `copy`, the one member that sends `Copy`, is rejected at
build time unless both classes are copyable, and in every reachable state the manager of a
constructed container is of the kind of its class; so no state reachable through the
public members, in a copyable or a move-only class, has an `Unexpected operation` among
its manager events. -/
theorem unexpected_operation_unreachable :
    (∀ (g : manage_function β α ρ ε) (p : Loc) (q : Option Loc) (op : operations_enum)
      (m : Memory β α ρ ε), inplace_function_operation g.SupportsCopying op = true →
        ∃ rest, (g.call p q op m).trace = m.trace ++ rest ∧
          Event.unexpected_operation ∉ rest) ∧
    (∀ (C O : Config) (t o : Nat) (m : Memory β α ρ ε),
      (C.Copyable = false ∨ O.Copyable = false) → copy C O t o m = none) ∧
    (∀ (swaps : Bool) (Γ : Nat → Option Config) (m : Memory β α ρ ε) (i : Nat) (C : Config)
      (g : manage_function β α ρ ε), Reachable swaps Γ m → Γ i = some C →
        (m.obj i).m_ManagerFctPtr = some g → g.SupportsCopying = C.Copyable) ∧
    (∀ (swaps : Bool) (Γ : Nat → Option Config) (m : Memory β α ρ ε),
      Reachable swaps Γ m → Event.unexpected_operation ∉ m.trace) := by
  refine ⟨fun g p q op m hop => manage_function.call_expected g p q op hop m, ?_, ?_,
    fun _ _ _ h => reachable_expected h⟩
  · intro C O t o m h
    unfold copy
    rw [if_neg]
    intro hc
    rcases h with h | h
    · rw [hc.2.2.1] at h; cases h
    · rw [hc.2.2.2] at h; cases h
  · intro swaps Γ m i C g h hi hg
    have hc := reachable_coherent h i C hi
    unfold coherent at hc
    rw [hg] at hc
    exact hc.1

/-- The move-only manager of the closure type, called with `Move`, constructs; a move-only
container that was constructed from a closure, moved and destroyed has no `Unexpected
operation` among its events. -/
theorem unexpected_operation_unreachable_witness :
    (∃ rest, ((⟨adder, false⟩ : manage_function Int Int Int Unit).call (.m_Data 1)
        (some (.m_Data 0)) .Move (raw 0)).trace = (raw 0).trace ++ rest ∧
      Event.unexpected_operation ∉ rest) ∧
    ∃ m1 : Memory Int Int Int Unit,
      ctor_move ⟨32, 16, false⟩ ⟨32, 16, false⟩ 1 0
        (set_body ⟨32, 16, false⟩ 0 adder 5 (raw 0)) = some m1 ∧
      Event.unexpected_operation ∉ (dtor ⟨32, 16, false⟩ 0 m1).trace := by
  refine ⟨unexpected_operation_unreachable.1 ⟨adder, false⟩ (.m_Data 1) (some (.m_Data 0))
    .Move (raw 0) rfl, ?_⟩
  have r0 : Reachable true (fun _ => none) (raw 0) := Reachable.start _ rfl
  have r1 := Reachable.ctor_functor_move ⟨32, 16, false⟩ 0 adder 5
    (set_body ⟨32, 16, false⟩ 0 adder 5 (raw 0)) r0 rfl rfl
  obtain ⟨m2, h2⟩ : ∃ m2, ctor_move ⟨32, 16, false⟩ ⟨32, 16, false⟩ 1 0
      (set_body ⟨32, 16, false⟩ 0 adder 5 (raw 0)) = some m2 := ⟨_, rfl⟩
  have r2 := Reachable.ctor_move ⟨32, 16, false⟩ ⟨32, 16, false⟩ 1 0 m2 r1 rfl rfl h2
  have r3 := Reachable.dtor ⟨32, 16, false⟩ 0 r2 rfl
  exact ⟨m2, h2, unexpected_operation_unreachable.2.2.2 true _ _ r3⟩

/-! ## Clear -/

theorem Memory.set_InvokeFctPtr_same (m : Memory β α ρ ε) (t : Nat)
    (f : InvokeFctPtrType β α ρ ε) (h : (m.obj t).m_InvokeFctPtr = f) :
    m.set_InvokeFctPtr t f = m := by
  cases m with
  | mk obj tempData trace =>
    simp only [Memory.set_InvokeFctPtr, Memory.mk.injEq, and_true]
    simp only at h
    rw [← h]
    exact Function.update_eq_self t obj

theorem Memory.set_ManagerFctPtr_same (m : Memory β α ρ ε) (t : Nat)
    (g : Option (manage_function β α ρ ε)) (h : (m.obj t).m_ManagerFctPtr = g) :
    m.set_ManagerFctPtr t g = m := by
  cases m with
  | mk obj tempData trace =>
    simp only [Memory.set_ManagerFctPtr, Memory.mk.injEq, and_true]
    simp only at h
    rw [← h]
    exact Function.update_eq_self t obj

/-- Clearing a container with the `DefaultFunction` of its class and no manager changes
nothing. -/
theorem inplace_function.clear_of_empty (C : Config) (t : Nat) (m : Memory β α ρ ε)
    (hf : (m.obj t).m_InvokeFctPtr = .DefaultFunction C)
    (hg : (m.obj t).m_ManagerFctPtr = none) : clear C t m = m := by
  simp only [clear]
  rw [Memory.set_InvokeFctPtr_same m t _ hf, hg]
  exact Memory.set_ManagerFctPtr_same m t _ hg

/-- C18: after `clear`, whatever the container held, the invoker is the `DefaultFunction`
of its class and the manager is null. `clear` runs `Destroy` once when the manager was not
null, also when the invoker was already a `DefaultFunction` (a moved-from container), and
not at all otherwise. A second `clear`, or the destructor after a `clear`, adds no event
and changes nothing. -/
theorem clear_is_idempotent (C : Config) (this : Nat) (m : Memory β α ρ ε) :
    ((clear C this m).obj this).m_InvokeFctPtr = .DefaultFunction C ∧
    ((clear C this m).obj this).m_ManagerFctPtr = none ∧
    (clear C this m).trace =
      m.trace ++ (if (m.obj this).m_ManagerFctPtr.isSome then [.destroy (data this)]
        else []) ∧
    clear C this (clear C this m) = clear C this m ∧
    dtor C this (clear C this m) = clear C this m := by
  have hf : ((clear C this m).obj this).m_InvokeFctPtr = .DefaultFunction C := by
    simp [clear_m_InvokeFctPtr]
  have hg : ((clear C this m).obj this).m_ManagerFctPtr = none := by
    simp [clear_m_ManagerFctPtr]
  exact ⟨hf, hg, clear_trace C this m, clear_of_empty C this _ hf hg,
    clear_of_empty C this _ hf hg⟩

/-! ## Swap without managers -/

theorem inplace_function.eq_of_members (x y : inplace_function β α ρ ε)
    (hf : x.m_InvokeFctPtr = y.m_InvokeFctPtr) (hg : x.m_ManagerFctPtr = y.m_ManagerFctPtr)
    (hd : x.m_Data = y.m_Data) : x = y := by
  cases x
  cases y
  simp only at hf hg hd
  rw [hf, hg, hd]

theorem inplace_function.swap_m_Data (t o i : Nat) (m : Memory β α ρ ε)
    (ht : (m.obj t).m_ManagerFctPtr = none) (ho : (m.obj o).m_ManagerFctPtr = none) :
    ((swap t o m).obj i).m_Data =
      if i = o then (m.obj t).m_Data
      else if i = t then (m.obj o).m_Data else (m.obj i).m_Data := by
  have h1 : ∀ (p q : Loc) (m0 : Memory β α ρ ε), (m0.obj t).m_ManagerFctPtr = none →
      move_buffer t p q m0 = m0.store q (m0.load p) := by
    intro p q m0 h0
    simp [move_buffer, h0]
  have h2 : ∀ (p q : Loc) (m0 : Memory β α ρ ε), (m0.obj o).m_ManagerFctPtr = none →
      move_buffer o p q m0 = m0.store q (m0.load p) := by
    intro p q m0 h0
    simp [move_buffer, h0]
  simp only [swap, Memory.set_ManagerFctPtr_m_Data, Memory.set_InvokeFctPtr_m_Data]
  rw [h1 _ _ m ht, h2 _ _ _ (by rw [Memory.store_m_ManagerFctPtr]; exact ho),
    h1 _ _ _ (by rw [Memory.store_m_ManagerFctPtr, Memory.store_m_ManagerFctPtr]; exact ht)]
  by_cases e1 : i = o
  · subst e1
    simp [Memory.store_m_Data, data, Memory.load, Memory.store]
  · by_cases e2 : i = t
    · subst e2
      have e3 : o ≠ i := fun e => e1 e.symm
      simp [Memory.store_m_Data, data, Memory.load, Memory.store, e1, e3]
    · have e3 : o ≠ i := fun e => e1 e.symm
      have e4 : t ≠ i := fun e => e2 e.symm
      simp [Memory.store_m_Data, data, e1, e2, e3, e4]

/-- Swapping two containers without managers exchanges the two objects and leaves every
other one, and the events, as they were. -/
theorem inplace_function.swap_obj (t o : Nat) (m : Memory β α ρ ε)
    (ht : (m.obj t).m_ManagerFctPtr = none) (ho : (m.obj o).m_ManagerFctPtr = none) :
    (swap t o m).obj t = m.obj o ∧ (swap t o m).obj o = m.obj t ∧
    (∀ i, i ≠ t → i ≠ o → (swap t o m).obj i = m.obj i) ∧
    (swap t o m).trace = m.trace := by
  refine ⟨?_, ?_, ?_, ?_⟩
  · apply eq_of_members
    · simp [swap_m_InvokeFctPtr]
    · simp [swap_m_ManagerFctPtr]
    · rw [swap_m_Data t o t m ht ho]
      by_cases e : t = o
      · simp [e]
      · simp [e]
  · apply eq_of_members
    · rw [swap_m_InvokeFctPtr]
      by_cases e : o = t
      · simp [e]
      · simp [e]
    · rw [swap_m_ManagerFctPtr]
      by_cases e : o = t
      · simp [e]
      · simp [e]
    · rw [swap_m_Data t o o m ht ho]
      simp
  · intro i h1 h2
    apply eq_of_members
    · simp [swap_m_InvokeFctPtr, h1, h2]
    · simp [swap_m_ManagerFctPtr, h1, h2]
    · rw [swap_m_Data t o i m ht ho]
      simp [h1, h2]
  · rw [swap_trace, ht, ho]
    simp

/-- The result of an invocation depends on the object alone. -/
theorem inplace_function.operator_call_of_obj (i j : Nat) (args : α) (m m1 : Memory β α ρ ε)
    (h : m1.obj j = m.obj i) : (operator_call j args m1).1 = (operator_call i args m).1 :=
  (operator_call_congr i j args m m1 (by rw [h]) (fun _ _ => by rw [h])).1

/-- C19: let neither of two containers of class `C` have a manager (each is Empty or holds
a plain function pointer). After `swap` each of the two objects is what the other was
before (the invoker, the null manager, and the buffer), so its boolean conversion and its
result for every argument list are those of the other before; every other container and
the manager events are unchanged; and swapping once more gives back every object. -/
theorem swap_without_managers (C : Config) (this other : Nat) (m : Memory β α ρ ε)
    (ht : (m.obj this).m_ManagerFctPtr = none)
    (ho : (m.obj other).m_ManagerFctPtr = none) :
    (swap this other m).obj this = m.obj other ∧
    (swap this other m).obj other = m.obj this ∧
    (∀ i, i ≠ this → i ≠ other → (swap this other m).obj i = m.obj i) ∧
    (swap this other m).trace = m.trace ∧
    operator_bool C this (swap this other m) = operator_bool C other m ∧
    operator_bool C other (swap this other m) = operator_bool C this m ∧
    (∀ args, (operator_call this args (swap this other m)).1 =
      (operator_call other args m).1) ∧
    (∀ args, (operator_call other args (swap this other m)).1 =
      (operator_call this args m).1) ∧
    (swap this other (swap this other m)).obj = m.obj := by
  obtain ⟨h1, h2, h3, h4⟩ := swap_obj this other m ht ho
  have ht1 : ((swap this other m).obj this).m_ManagerFctPtr = none := by rw [h1]; exact ho
  have ho1 : ((swap this other m).obj other).m_ManagerFctPtr = none := by rw [h2]; exact ht
  obtain ⟨k1, k2, k3, _⟩ := swap_obj this other (swap this other m) ht1 ho1
  refine ⟨h1, h2, h3, h4, ?_, ?_, ?_, ?_, ?_⟩
  · simp [operator_bool, h1]
  · simp [operator_bool, h2]
  · intro args
    exact operator_call_of_obj other this args m _ h1
  · intro args
    exact operator_call_of_obj this other args m _ h2
  · funext i
    by_cases e1 : i = this
    · subst e1
      rw [k1, h2]
    · by_cases e2 : i = other
      · subst e2
        rw [k2, h1]
      · rw [k3 i e1 e2, h3 i e1 e2]

/-- A container holding the function doubling its argument is swapped with a default
constructed one: afterwards the second returns 6 for 3 and the first throws. -/
theorem swap_without_managers_witness :
    (operator_call 1 3
      (swap 0 1 (ctor_default C32 1 (ctor_ptr 0 (fun x => .ok (2 * x)) (raw 0))))).1 =
        .ok 6 ∧
    (operator_call 0 3
      (swap 0 1 (ctor_default C32 1 (ctor_ptr 0 (fun x => .ok (2 * x)) (raw 0))))).1 =
        .error .bad_function_call :=
  have h := swap_without_managers C32 0 1
    (ctor_default C32 1 (ctor_ptr 0 (fun x => .ok (2 * x)) (raw 0))) rfl rfl
  ⟨(h.2.2.2.2.2.2.2.1 3).trans rfl, (h.2.2.2.2.2.2.1 3).trans rfl⟩

/-! ## Self-assignment -/

/-- Moving an Empty container of class `C` without a manager into itself changes
nothing. -/
theorem inplace_function.move_self_of_empty (C : Config) (t : Nat) (m : Memory β α ρ ε)
    (hf : (m.obj t).m_InvokeFctPtr = .DefaultFunction C)
    (hg : (m.obj t).m_ManagerFctPtr = none) : move C C t t m = some m := by
  rw [move, if_pos ⟨le_refl _, Nat.mod_self _, rfl⟩]
  simp only [hg]
  rw [Memory.set_InvokeFctPtr_same m t _ rfl, Memory.set_ManagerFctPtr_same m t _ rfl,
    Memory.set_InvokeFctPtr_same m t _ hf]

/-- Copying an Empty container of a copyable class without a manager into itself changes
nothing. -/
theorem inplace_function.copy_self_of_empty (C : Config) (t : Nat) (m : Memory β α ρ ε)
    (hC : C.Copyable = true) (hg : (m.obj t).m_ManagerFctPtr = none) :
    copy C C t t m = some m := by
  rw [copy, if_pos ⟨le_refl _, Nat.mod_self _, hC, hC⟩]
  simp only [hg]
  rw [Memory.set_InvokeFctPtr_same m t _ rfl, Memory.set_ManagerFctPtr_same m t _ rfl]

/-- C20: move assigning a container to itself, and copy assigning it to itself in a
copyable class, is accepted and gives exactly the cleared container: the target is
destroyed once if there was a manager, then the copy or move from the already cleared
container changes nothing. Afterwards the invoker is the `DefaultFunction` of the class,
the manager is null, the container converts to `false` and throws
`std::bad_function_call` when invoked. -/
theorem self_assignment_empties (C : Config) (this : Nat) (m : Memory β α ρ ε) :
    assign_move C C this this m = some (clear C this m) ∧
    (C.Copyable = true → assign_copy C C this this m = some (clear C this m)) ∧
    (clear C this m).trace =
      m.trace ++ (if (m.obj this).m_ManagerFctPtr.isSome then [.destroy (data this)]
        else []) ∧
    ((clear C this m).obj this).m_InvokeFctPtr = .DefaultFunction C ∧
    ((clear C this m).obj this).m_ManagerFctPtr = none ∧
    operator_bool C this (clear C this m) = false ∧
    ∀ args, (operator_call this args (clear C this m)).1 = .error .bad_function_call := by
  have hf : ((clear C this m).obj this).m_InvokeFctPtr = .DefaultFunction C := by
    simp [clear_m_InvokeFctPtr]
  have hg : ((clear C this m).obj this).m_ManagerFctPtr = none := by
    simp [clear_m_ManagerFctPtr]
  refine ⟨?_, ?_, clear_trace C this m, hf, hg, ?_, ?_⟩
  · rw [assign_move, if_pos (Or.inl rfl)]
    exact move_self_of_empty C this _ hf hg
  · intro hC
    exact copy_self_of_empty C this _ hC hg
  · simp [operator_bool, hf, InvokeFctPtrType.ne_DefaultFunction]
  · intro args
    exact (operator_call_throws_iff this args _).2 ⟨C, hf⟩

/-- A container holding the closure adding 5 is copy assigned to itself: the target is
destroyed and the container is left Empty. -/
theorem self_assignment_empties_witness :
    ∃ m1, assign_copy C32 C32 0 0 (set_body C32 0 adder 5 (raw 0)) = some m1 ∧
      m1.trace = [.construct (.m_Data 0), .destroy (.m_Data 0)] ∧
      operator_bool C32 0 m1 = false :=
  have h := self_assignment_empties C32 0 (set_body C32 0 adder 5 (raw 0))
  ⟨_, h.2.1 rfl, rfl, h.2.2.2.2.2.1⟩

/-! ## Copy assignment from a non-const lvalue -/

/-- C8: `w = c` with `c` a non-const lvalue of capacity 32 holding the closure adding 5 and
`w` of capacity 64. The assignment selects `operator=(Callable&&)`, which takes the whole
container `c` as its target and move constructs it into the buffer of `w`. Before, `c`
converts to `true` and returns 8 for 3. After, whatever the object representation of the
class, `c` holds its own `DefaultFunction`, converts to `false` and throws
`std::bad_function_call`: the original is not left unchanged and does not return what the
copy returns, whose buffer now holds a container with the closure. Between two containers
of capacity 32 the same assignment is rejected at build time, as 48 bytes do not fit. -/
theorem lvalue_copy_assignment_empties_source
    (call : Int → Int → Except Unit Int × Int) (moved_from destroyed : Int → Int)
    (pack : inplace_function Int Int Int Unit → Int) :
    ∃ m m1, narrow_and_wide = some m ∧
      assign_lvalue C64 C32 (F32 call moved_from destroyed) pack 1 0 2 m = some m1 ∧
      operator_bool C32 0 m = true ∧ (operator_call 0 3 m).1 = .ok 8 ∧
      (m1.obj 0).m_InvokeFctPtr = .DefaultFunction C32 ∧
      operator_bool C32 0 m1 = false ∧
      (operator_call 0 3 m1).1 = .error .bad_function_call ∧
      operator_bool C64 1 m1 = true ∧
      (m1.obj 1).m_InvokeFctPtr = .invoke (F32 call moved_from destroyed) ∧
      (m1.obj 1).m_Data = pack ⟨.invoke adder, some ⟨adder, true⟩, 5⟩ ∧
      (operator_call 1 3 m1).1 =
        Thrown.of_target (call (pack ⟨.invoke adder, some ⟨adder, true⟩, 5⟩) 3).1 ∧
      ∀ m0, assign_lvalue C32 C32 (F32 call moved_from destroyed) pack 1 0 2 m0 = none := by
  have hfit : (F32 call moved_from destroyed).sizeof ≤ C64.Capacity ∧
      C64.Alignment % (F32 call moved_from destroyed).alignof = 0 ∧
      (C64.Copyable = true → (F32 call moved_from destroyed).is_copy_constructible = true) :=
    ⟨by simp [F32, C64], by simp [F32, C64], fun _ => rfl⟩
  have hno : ¬ ((F32 call moved_from destroyed).sizeof ≤ C32.Capacity ∧
      C32.Alignment % (F32 call moved_from destroyed).alignof = 0 ∧
      (C32.Copyable = true → (F32 call moved_from destroyed).is_copy_constructible = true)) :=
    fun h => absurd h.1 (by simp [F32, C32, InplaceFunctionDefaultCapacity])
  obtain ⟨m1, h1⟩ : ∃ m1, assign_lvalue C64 C32 (F32 call moved_from destroyed) pack 1 0 2
      (ctor_default C64 1 (set_body C32 0 adder 5 (raw 0))) = some m1 := by
    rw [assign_lvalue, if_pos hfit]
    exact ⟨_, rfl⟩
  have h2 := h1
  rw [assign_lvalue, if_pos hfit] at h2
  refine ⟨_, m1, rfl, h1, rfl, rfl, ?_, ?_, ?_, ?_, ?_, ?_, ?_, ?_⟩
  · cases h2; rfl
  · cases h2; rfl
  · cases h2; rfl
  · cases h2; rfl
  · cases h2; rfl
  · cases h2; rfl
  · cases h2; rfl
  · intro m0
    rw [assign_lvalue, if_neg hno]

end

end stdext
